import Mathlib

set_option maxHeartbeats 1000000

/-!
Shallow embedding of the RESP codec in src/lib.rs (enum RespType with
from_bytes, as_bytes, read_string, read_bulk_string, read_array, read_line).

Bytes are modelled as lists of naturals; Rust String payloads are
represented by their UTF-8 byte lists; machine-integer casts are made
explicit with modular arithmetic.  A Rust panic (out-of-range slice index
or, in debug builds, an overflowing add) is modelled by the distinguished
result DecodeResult.crash.  The recursive decoder is embedded with a
structural fuel parameter; from_bytes supplies fuel strictly larger than
the input length, which is proved sufficient below.
-/

/-- Errors of the RESP decoder, one constructor per variant of the Rust
enum ParseError in src/lib.rs. -/
inductive ParseError where
  | unexpectedEof
  | fromUtf8Error
  | parseIntError
  | unexpectedByte (b : Nat)
  | unforeseenError
deriving DecidableEq

/-- The RESP value model, mirroring the Rust enum RespType.  A Rust
String payload is represented by its UTF-8 byte list; a bulk-string
payload Vec of u8 is likewise a byte list. -/
inductive RespType where
  | simpleString (s : List Nat)
  | error (s : List Nat)
  | integer (n : Int)
  | bulkString (b : Option (List Nat))
  | array (items : List RespType)

/-- Outcome of a decoder call: a successful (remaining bytes, value)
pair, a returned ParseError, a Rust runtime panic (crash), or exhaustion
of the recursion fuel used by the shallow embedding (proved unreachable
for the fuel supplied by RespType.from_bytes). -/
inductive DecodeResult where
  | ok (remaining : List Nat) (value : RespType)
  | err (e : ParseError)
  | crash
  | outOfFuel

/-- ASCII decimal digit test (48..57). -/
def isDigit (b : Nat) : Bool := decide (48 ≤ b ∧ b ≤ 57)

/-- Value of an ASCII digit list read most-significant-digit first, with
the accumulation used by Rust decimal parsing. -/
def digitsVal (l : List Nat) : Nat := l.foldl (fun acc b => acc * 10 + (b - 48)) 0

/-- Least-significant-first decimal digits of n; the first argument is
structural fuel (any fuel at least n computes the digits of n). -/
def natDigitsRevAux : Nat → Nat → List Nat
  | _, 0 => []
  | 0, _ + 1 => []
  | fuel + 1, n + 1 => (n + 1) % 10 :: natDigitsRevAux fuel ((n + 1) / 10)

/-- ASCII bytes of the decimal representation of a natural number, as
produced by Rust formatting of an unsigned value. -/
def natToDecBytes (n : Nat) : List Nat :=
  if n = 0 then [48] else ((natDigitsRevAux n n).reverse).map (fun d => d + 48)

/-- ASCII bytes of the decimal representation of an i64, with a leading
minus byte 45 when negative, as produced by Rust Display for i64. -/
def intToDecBytes (n : Int) : List Nat :=
  if n < 0 then 45 :: natToDecBytes (-n).toNat else natToDecBytes n.toNat

/-- UTF-8 continuation byte test: 0x80..0xBF. -/
def isCont (b : Nat) : Bool := decide (128 ≤ b ∧ b ≤ 191)

/-- Allowed ranges for the continuation bytes following a lead byte, per
the exact table enforced by Rust String::from_utf8 (RFC 3629: no
overlong forms, no surrogates, maximum code point U+10FFFF); none for an
invalid lead byte. -/
def utf8Expect (b : Nat) : Option (List (Nat × Nat)) :=
  if b ≤ 127 then some []
  else if 194 ≤ b ∧ b ≤ 223 then some [(128, 191)]
  else if b = 224 then some [(160, 191), (128, 191)]
  else if 225 ≤ b ∧ b ≤ 236 then some [(128, 191), (128, 191)]
  else if b = 237 then some [(128, 159), (128, 191)]
  else if 238 ≤ b ∧ b ≤ 239 then some [(128, 191), (128, 191)]
  else if b = 240 then some [(144, 191), (128, 191), (128, 191)]
  else if 241 ≤ b ∧ b ≤ 243 then some [(128, 191), (128, 191), (128, 191)]
  else if b = 244 then some [(128, 143), (128, 191), (128, 191)]
  else none

/-- UTF-8 validation automaton: the first argument is the list of byte
ranges still expected to finish the current multi-byte sequence. -/
def validUtf8Go : List (Nat × Nat) → List Nat → Bool
  | [], [] => true
  | _ :: _, [] => false
  | [], b :: rest =>
    match utf8Expect b with
    | some exp => validUtf8Go exp rest
    | none => false
  | (lo, hi) :: exp, b :: rest => decide (lo ≤ b ∧ b ≤ hi) && validUtf8Go exp rest

/-- UTF-8 validity of a byte list, as checked by Rust String::from_utf8. -/
def validUtf8 (l : List Nat) : Bool := validUtf8Go [] l

/-- The sign-and-digits shape accepted by Rust str::parse::<i64> on the
UTF-8 bytes of the string: an optional single leading plus (43) or minus
(45), then one or more ASCII digits; yields the signed decimal value
(before the 64-bit range check). -/
def parseSignDigits : List Nat → Option Int
  | [] => none
  | b :: rest =>
    if b = 43 then
      if rest ≠ [] ∧ rest.all isDigit = true then some ((digitsVal rest : Nat) : Int)
      else none
    else if b = 45 then
      if rest ≠ [] ∧ rest.all isDigit = true then some (-((digitsVal rest : Nat) : Int))
      else none
    else if (b :: rest).all isDigit = true then some ((digitsVal (b :: rest) : Nat) : Int)
    else none

/-- Rust str::parse::<i64>: the shape above plus the signed 64-bit range
check (an overflowing value is a parse error). -/
def parseI64 (l : List Nat) : Option Int :=
  match parseSignDigits l with
  | some v => if -(2 ^ 63) ≤ v ∧ v ≤ 2 ^ 63 - 1 then some v else none
  | none => none

/-- String::from_utf8 followed by parse::<i64> with the error mapping
used by read_bulk_string and read_array for their size line. -/
def parseLineInt (l : List Nat) : Except ParseError Int :=
  if validUtf8 l = true then
    match parseI64 l with
    | some v => Except.ok v
    | none => Except.error ParseError.parseIntError
  else Except.error ParseError.fromUtf8Error

/-- Index of the first two-byte window equal to CR LF, modelling the
scan bytes.windows(2).position in read_line. -/
def findCrlf : List Nat → Option Nat
  | [] => none
  | [_] => none
  | a :: b :: rest =>
    if a = 13 ∧ b = 10 then some 0 else (findCrlf (b :: rest)).map (fun p => p + 1)

/-- RespType.read_line: split at the first CR LF window; the line is the
prefix strictly before it and the remainder starts after the two
terminator bytes; no window found is an unexpected end of input. -/
def RespType.read_line (bytes : List Nat) : Except ParseError (List Nat × List Nat) :=
  match findCrlf bytes with
  | some p => Except.ok (bytes.drop (p + 2), bytes.take p)
  | none => Except.error ParseError.unexpectedEof

/-- The value of an i64 cast with: as usize (64-bit two's complement). -/
def usizeOfI64 (n : Int) : Nat := (n % (2 ^ 64)).toNat

/-- RespType.read_string: read a line and validate it as UTF-8. -/
def RespType.read_string (bytes : List Nat) : DecodeResult :=
  match RespType.read_line bytes with
  | Except.error e => DecodeResult.err e
  | Except.ok (remaining, line) =>
    if validUtf8 line = true then DecodeResult.ok remaining (RespType.simpleString line)
    else DecodeResult.err ParseError.fromUtf8Error

/-- RespType.read_bulk_string, with release-build Rust arithmetic made
explicit: the parsed size is cast to usize, end_idx is the wrapping sum
size as usize + 2, and the slice remaining[..size as usize] panics
(crash) when its end index exceeds the slice length.  (A debug build
panics already at the overflowing add for size = -2; either way that
input crashes rather than returning.) -/
def RespType.read_bulk_string (bytes : List Nat) : DecodeResult :=
  match RespType.read_line bytes with
  | Except.error e => DecodeResult.err e
  | Except.ok (remaining, line) =>
    match parseLineInt line with
    | Except.error e => DecodeResult.err e
    | Except.ok size =>
      if size = -1 then DecodeResult.ok remaining (RespType.bulkString none)
      else
        let sizeUsize := usizeOfI64 size
        let end_idx := (sizeUsize + 2) % 2 ^ 64
        if remaining.length < end_idx then DecodeResult.err ParseError.unexpectedEof
        else if sizeUsize ≤ remaining.length then
          DecodeResult.ok (remaining.drop end_idx)
            (RespType.bulkString (some (remaining.take sizeUsize)))
        else DecodeResult.crash

/-- The element loop of RespType.read_array: run the supplied decoder
the given number of times, threading the remaining-bytes slice through
each call in order and accumulating the decoded values in order; any
failure of a call is returned immediately. -/
def readElemsGo (d : List Nat → DecodeResult) : Nat → List Nat → List RespType → DecodeResult
  | 0, bytes, acc => DecodeResult.ok bytes (RespType.array acc)
  | n + 1, bytes, acc =>
    match d bytes with
    | DecodeResult.ok remaining v => readElemsGo d n remaining (acc ++ [v])
    | r => r

/-- RespType.read_array, parameterised by the decoder used for the
elements (instantiated with the fuelled decoder below): read and parse
the size line, then loop size times; a negative size yields zero
iterations because the Rust range 0..size is then empty. -/
def RespType.read_array (d : List Nat → DecodeResult) (bytes : List Nat) : DecodeResult :=
  match RespType.read_line bytes with
  | Except.error e => DecodeResult.err e
  | Except.ok (remaining, line) =>
    match parseLineInt line with
    | Except.error e => DecodeResult.err e
    | Except.ok size => readElemsGo d size.toNat remaining []

/-- The '-' arm of from_bytes: a read_string success (always a
SimpleString) is converted to an Error; any other success value would be
the internal-consistency error; failures propagate. -/
def toError : DecodeResult → DecodeResult
  | DecodeResult.ok remaining (RespType.simpleString s) =>
      DecodeResult.ok remaining (RespType.error s)
  | DecodeResult.ok _ _ => DecodeResult.err ParseError.unforeseenError
  | r => r

/-- The ':' arm of from_bytes: a read_string success is parsed as an
i64; any other success value would be the internal-consistency error;
failures propagate. -/
def toInteger : DecodeResult → DecodeResult
  | DecodeResult.ok remaining (RespType.simpleString s) =>
    (match parseI64 s with
     | some v => DecodeResult.ok remaining (RespType.integer v)
     | none => DecodeResult.err ParseError.parseIntError)
  | DecodeResult.ok _ _ => DecodeResult.err ParseError.unforeseenError
  | r => r

/-- Fuelled body of RespType.from_bytes: dispatch on the tag byte
exactly as the Rust match (43 '+', 45 '-', 58 ':', 36 '$', 42 '*'); the
fuel decreases at each array nesting level. -/
def decodeF : Nat → List Nat → DecodeResult
  | 0, _ => DecodeResult.outOfFuel
  | fuel + 1, bytes =>
    match bytes with
    | [] => DecodeResult.err ParseError.unexpectedEof
    | b :: rest =>
      if b = 43 then RespType.read_string rest
      else if b = 45 then toError (RespType.read_string rest)
      else if b = 58 then toInteger (RespType.read_string rest)
      else if b = 36 then RespType.read_bulk_string rest
      else if b = 42 then RespType.read_array (fun bs => decodeF fuel bs) rest
      else DecodeResult.err (ParseError.unexpectedByte b)

/-- RespType.from_bytes: the fuelled decoder at fuel strictly larger
than the input length, which is proved sufficient below. -/
def RespType.from_bytes (bytes : List Nat) : DecodeResult :=
  decodeF (bytes.length + 1) bytes

/-- Specification-level element loop: readElemsGo with the decoder fixed
to RespType.from_bytes. -/
def decodeElems : Nat → List Nat → List RespType → DecodeResult
  | 0, bytes, acc => DecodeResult.ok bytes (RespType.array acc)
  | n + 1, bytes, acc =>
    match RespType.from_bytes bytes with
    | DecodeResult.ok remaining v => decodeElems n remaining (acc ++ [v])
    | r => r

mutual
/-- RespType.as_bytes: the encoder, byte for byte as in src/lib.rs. -/
def RespType.as_bytes : RespType → List Nat
  | RespType.simpleString s => 43 :: (s ++ [13, 10])
  | RespType.error s => 45 :: (s ++ [13, 10])
  | RespType.integer n => 58 :: (intToDecBytes n ++ [13, 10])
  | RespType.bulkString (some b) =>
      36 :: (natToDecBytes b.length ++ [13, 10] ++ b ++ [13, 10])
  | RespType.bulkString none => [36, 45, 49, 13, 10]
  | RespType.array items =>
      42 :: (natToDecBytes items.length ++ [13, 10] ++ RespType.as_bytes_list items)

/-- Concatenation of the encodings of a list of values in order (the
extend loop of the array arm of as_bytes). -/
def RespType.as_bytes_list : List RespType → List Nat
  | [] => []
  | v :: vs => RespType.as_bytes v ++ RespType.as_bytes_list vs
end

mutual
/-- Invariants guaranteed by the Rust types of the payloads: string
payloads are valid UTF-8 (they are Rust Strings), the integer fits in
i64, and vector lengths are at most isize::MAX = 2^63 - 1 (a Rust
allocation bound). -/
def RespType.wellFormed : RespType → Bool
  | RespType.simpleString s => validUtf8 s
  | RespType.error s => validUtf8 s
  | RespType.integer n => decide (-(2 ^ 63) ≤ n ∧ n ≤ 2 ^ 63 - 1)
  | RespType.bulkString (some b) => decide (b.length ≤ 2 ^ 63 - 1)
  | RespType.bulkString none => true
  | RespType.array items =>
      decide (items.length ≤ 2 ^ 63 - 1) && RespType.wellFormedList items

/-- The conjunction of wellFormed over a list of values. -/
def RespType.wellFormedList : List RespType → Bool
  | [] => true
  | v :: vs => RespType.wellFormed v && RespType.wellFormedList vs
end

mutual
/-- The canonical subset of the round-trip claims: every simple-string
and error payload, recursively, contains neither CR (13) nor LF (10). -/
def RespType.canonical : RespType → Bool
  | RespType.simpleString s => s.all (fun b => decide (b ≠ 13 ∧ b ≠ 10))
  | RespType.error s => s.all (fun b => decide (b ≠ 13 ∧ b ≠ 10))
  | RespType.integer _ => true
  | RespType.bulkString _ => true
  | RespType.array items => RespType.canonicalList items

/-- The conjunction of canonical over a list of values. -/
def RespType.canonicalList : List RespType → Bool
  | [] => true
  | v :: vs => RespType.canonical v && RespType.canonicalList vs
end

/-! ### Properties of the line scanner -/

theorem findCrlf_cons_cons (a b : Nat) (l : List Nat) :
    findCrlf (a :: b :: l) =
      if a = 13 ∧ b = 10 then some 0 else (findCrlf (b :: l)).map (fun p => p + 1) := rfl

theorem findCrlf_boundary (l r : List Nat) (h : 13 ∉ l) :
    findCrlf (l ++ 13 :: 10 :: r) = some l.length := by
  induction l with
  | nil => simp [findCrlf]
  | cons a l ih =>
    have ha : a ≠ 13 := fun hc => h (hc ▸ List.mem_cons_self a l)
    have hl : 13 ∉ l := fun hc => h (List.mem_cons_of_mem a hc)
    cases l with
    | nil =>
      simp only [List.nil_append, List.cons_append, findCrlf_cons_cons]
      rw [if_neg (fun hc => ha hc.1)]
      simp [findCrlf]
    | cons b l2 =>
      simp only [List.cons_append, findCrlf_cons_cons]
      rw [if_neg (fun hc => ha hc.1)]
      have := ih hl
      simp only [List.cons_append] at this
      rw [this]
      simp

theorem findCrlf_append_cr (l : List Nat) (h : 13 ∉ l) :
    findCrlf (l ++ [13]) = none := by
  induction l with
  | nil => simp [findCrlf]
  | cons a l ih =>
    have ha : a ≠ 13 := fun hc => h (hc ▸ List.mem_cons_self a l)
    have hl : 13 ∉ l := fun hc => h (List.mem_cons_of_mem a hc)
    cases l with
    | nil =>
      simp only [List.nil_append, List.cons_append, findCrlf_cons_cons]
      rw [if_neg (fun hc => ha hc.1)]
      simp [findCrlf]
    | cons b l2 =>
      simp only [List.cons_append, findCrlf_cons_cons]
      rw [if_neg (fun hc => ha hc.1)]
      have := ih hl
      simp only [List.cons_append] at this
      rw [this]
      simp

theorem findCrlf_some_spec : ∀ (l : List Nat) (p : Nat), findCrlf l = some p →
    l.get? p = some 13 ∧ l.get? (p + 1) = some 10 ∧
      ∀ q, q < p → ¬(l.get? q = some 13 ∧ l.get? (q + 1) = some 10)
  | [], p, h => by simp [findCrlf] at h
  | [a], p, h => by simp [findCrlf] at h
  | a :: b :: l, p, h => by
    rw [findCrlf_cons_cons] at h
    by_cases hab : a = 13 ∧ b = 10
    · rw [if_pos hab] at h
      cases h
      exact ⟨by simp [hab.1], by simp [hab.2], fun q hq => absurd hq (Nat.not_lt_zero q)⟩
    · rw [if_neg hab] at h
      cases hp : findCrlf (b :: l) with
      | none => rw [hp] at h; simp at h
      | some p2 =>
        rw [hp] at h
        simp only [Option.map_some'] at h
        obtain ⟨h13, h10, hmin⟩ := findCrlf_some_spec (b :: l) p2 hp
        cases h
        refine ⟨by simpa using h13, by simpa using h10, ?_⟩
        intro q hq
        cases q with
        | zero =>
          intro ⟨hq13, hq10⟩
          simp only [List.get?] at hq13 hq10
          exact hab ⟨Option.some.inj hq13, Option.some.inj hq10⟩
        | succ q2 =>
          intro ⟨hq13, hq10⟩
          exact hmin q2 (Nat.lt_of_succ_lt_succ hq) ⟨by simpa using hq13, by simpa using hq10⟩

theorem findCrlf_none_spec : ∀ (l : List Nat), findCrlf l = none →
    ∀ p, ¬(l.get? p = some 13 ∧ l.get? (p + 1) = some 10)
  | [], _, p => by simp
  | [a], _, p => by
    intro ⟨h13, h10⟩
    cases p with
    | zero => simp [List.get?] at h10
    | succ q => simp [List.get?] at h13
  | a :: b :: l, h, p => by
    rw [findCrlf_cons_cons] at h
    by_cases hab : a = 13 ∧ b = 10
    · rw [if_pos hab] at h; simp at h
    · rw [if_neg hab] at h
      cases hp : findCrlf (b :: l) with
      | some p2 => rw [hp] at h; simp at h
      | none =>
        intro ⟨h13, h10⟩
        cases p with
        | zero =>
          simp only [List.get?] at h13 h10
          exact hab ⟨Option.some.inj h13, Option.some.inj h10⟩
        | succ q =>
          exact findCrlf_none_spec (b :: l) hp q ⟨by simpa using h13, by simpa using h10⟩

theorem read_line_boundary (l r : List Nat) (h : 13 ∉ l) :
    RespType.read_line (l ++ 13 :: 10 :: r) = Except.ok (r, l) := by
  rw [RespType.read_line, findCrlf_boundary l r h]
  have hdrop : (l ++ 13 :: 10 :: r).drop (l.length + 2) = r := by
    rw [← List.drop_drop, List.drop_left]
    rfl
  have htake : (l ++ 13 :: 10 :: r).take l.length = l := List.take_left l (13 :: 10 :: r)
  show Except.ok ((l ++ 13 :: 10 :: r).drop (l.length + 2), (l ++ 13 :: 10 :: r).take l.length) =
    Except.ok (r, l)
  rw [hdrop, htake]

theorem read_line_ok_spec (bytes rem line : List Nat)
    (h : RespType.read_line bytes = Except.ok (rem, line)) :
    ∃ p, bytes.get? p = some 13 ∧ bytes.get? (p + 1) = some 10 ∧
      (∀ q, q < p → ¬(bytes.get? q = some 13 ∧ bytes.get? (q + 1) = some 10)) ∧
      line = bytes.take p ∧ rem = bytes.drop (p + 2) := by
  rw [RespType.read_line] at h
  cases hp : findCrlf bytes with
  | none => rw [hp] at h; cases h
  | some p =>
    rw [hp] at h
    obtain ⟨h13, h10, hmin⟩ := findCrlf_some_spec bytes p hp
    cases h
    exact ⟨p, h13, h10, hmin, rfl, rfl⟩

theorem read_line_shrink (bytes rem line : List Nat)
    (h : RespType.read_line bytes = Except.ok (rem, line)) :
    rem.length + 2 ≤ bytes.length ∧ line.length + 2 ≤ bytes.length := by
  obtain ⟨p, h13, h10, _, hline, hrem⟩ := read_line_ok_spec bytes rem line h
  have hp1 : p + 1 < bytes.length := List.get?_eq_some.mp h10 |>.1
  subst hline; subst hrem
  constructor
  · rw [List.length_drop]; omega
  · rw [List.length_take]; omega

theorem read_line_err (bytes : List Nat) (e : ParseError)
    (h : RespType.read_line bytes = Except.error e) : e = ParseError.unexpectedEof := by
  rw [RespType.read_line] at h
  cases hp : findCrlf bytes with
  | none => rw [hp] at h; cases h; rfl
  | some p => rw [hp] at h; cases h

theorem read_line_no_crlf (bytes : List Nat)
    (h : ∀ p, ¬(bytes.get? p = some 13 ∧ bytes.get? (p + 1) = some 10)) :
    RespType.read_line bytes = Except.error ParseError.unexpectedEof := by
  rw [RespType.read_line]
  cases hp : findCrlf bytes with
  | none => rfl
  | some p =>
    obtain ⟨h13, h10, _⟩ := findCrlf_some_spec bytes p hp
    exact absurd ⟨h13, h10⟩ (h p)

/-! ### Decimal digits and integer parsing -/

theorem natDigitsRevAux_ofDigits : ∀ fuel n, n ≤ fuel →
    Nat.ofDigits 10 (natDigitsRevAux fuel n) = n
  | _, 0, _ => by simp [natDigitsRevAux, Nat.ofDigits_nil]
  | 0, n + 1, h => by omega
  | fuel + 1, n + 1, h => by
    simp only [natDigitsRevAux, Nat.ofDigits_cons]
    rw [natDigitsRevAux_ofDigits fuel ((n + 1) / 10) (by omega)]
    omega

theorem natDigitsRevAux_lt : ∀ fuel n d, d ∈ natDigitsRevAux fuel n → d < 10
  | _, 0, d, h => by simp [natDigitsRevAux] at h
  | 0, n + 1, d, h => by simp [natDigitsRevAux] at h
  | fuel + 1, n + 1, d, h => by
    simp only [natDigitsRevAux] at h
    rcases List.mem_cons.mp h with h1 | h2
    · subst h1; exact Nat.mod_lt _ (by omega)
    · exact natDigitsRevAux_lt fuel ((n + 1) / 10) d h2

theorem digitsVal_concat (l : List Nat) (b : Nat) :
    digitsVal (l ++ [b]) = digitsVal l * 10 + (b - 48) := by
  simp [digitsVal, List.foldl_append]

theorem digitsVal_reverse_map : ∀ L : List Nat,
    digitsVal ((L.reverse).map (fun d => d + 48)) = Nat.ofDigits 10 L
  | [] => by simp [digitsVal, Nat.ofDigits_nil]
  | d :: L => by
    rw [List.reverse_cons, List.map_append, List.map_cons, List.map_nil, digitsVal_concat,
      digitsVal_reverse_map L, Nat.ofDigits_cons]
    omega

theorem digitsVal_natToDecBytes (n : Nat) : digitsVal (natToDecBytes n) = n := by
  rw [natToDecBytes]
  by_cases h : n = 0
  · subst h; decide
  · rw [if_neg h, digitsVal_reverse_map]
    exact natDigitsRevAux_ofDigits n n (Nat.le_refl n)

theorem natToDecBytes_all_digit (n : Nat) : (natToDecBytes n).all isDigit = true := by
  rw [List.all_eq_true]
  intro b hb
  rw [natToDecBytes] at hb
  by_cases h : n = 0
  · rw [if_pos h] at hb
    simp only [List.mem_singleton] at hb
    subst hb; decide
  · rw [if_neg h] at hb
    rw [List.mem_map] at hb
    obtain ⟨d, hd, rfl⟩ := hb
    rw [List.mem_reverse] at hd
    have := natDigitsRevAux_lt n n d hd
    simp only [isDigit, decide_eq_true_eq]
    omega

theorem natToDecBytes_ne_nil (n : Nat) : natToDecBytes n ≠ [] := by
  intro hc
  have hv := digitsVal_natToDecBytes n
  rw [hc] at hv
  have h0 : n = 0 := by simpa [digitsVal] using hv.symm
  subst h0
  rw [natToDecBytes, if_pos rfl] at hc
  cases hc

theorem all_digit_bounds {l : List Nat} (h : l.all isDigit = true) :
    ∀ b ∈ l, 48 ≤ b ∧ b ≤ 57 := by
  intro b hb
  have hi := List.all_eq_true.mp h b hb
  simpa [isDigit, decide_eq_true_eq] using hi

theorem no13_of_all_digit {l : List Nat} (h : l.all isDigit = true) : 13 ∉ l := by
  intro hc
  have := all_digit_bounds h 13 hc
  omega

theorem no13_natToDecBytes (n : Nat) : 13 ∉ natToDecBytes n :=
  no13_of_all_digit (natToDecBytes_all_digit n)

theorem no13_intToDecBytes (n : Int) : 13 ∉ intToDecBytes n := by
  rw [intToDecBytes]
  by_cases h : n < 0
  · rw [if_pos h]
    intro hc
    rcases List.mem_cons.mp hc with h1 | h2
    · omega
    · exact no13_natToDecBytes _ h2
  · rw [if_neg h]; exact no13_natToDecBytes _

theorem validUtf8_of_ascii : ∀ l : List Nat, (∀ b ∈ l, b ≤ 127) → validUtf8 l = true
  | [], _ => rfl
  | b :: l, h => by
    have hb : b ≤ 127 := h b (List.mem_cons_self b l)
    show validUtf8Go [] (b :: l) = true
    simp only [validUtf8Go]
    rw [utf8Expect, if_pos hb]
    exact validUtf8_of_ascii l (fun x hx => h x (List.mem_cons_of_mem b hx))

theorem validUtf8_natToDecBytes (n : Nat) : validUtf8 (natToDecBytes n) = true :=
  validUtf8_of_ascii _ (fun b hb => by
    have := all_digit_bounds (natToDecBytes_all_digit n) b hb; omega)

theorem validUtf8_intToDecBytes (n : Int) : validUtf8 (intToDecBytes n) = true := by
  rw [intToDecBytes]
  by_cases h : n < 0
  · rw [if_pos h]
    apply validUtf8_of_ascii
    intro b hb
    rcases List.mem_cons.mp hb with h1 | h2
    · omega
    · have := all_digit_bounds (natToDecBytes_all_digit _) b h2; omega
  · rw [if_neg h]; exact validUtf8_natToDecBytes _

theorem parseSignDigits_natToDecBytes (m : Nat) :
    parseSignDigits (natToDecBytes m) = some (m : Int) := by
  obtain ⟨h, t, hht⟩ := List.exists_cons_of_ne_nil (natToDecBytes_ne_nil m)
  have hall : (natToDecBytes m).all isDigit = true := natToDecBytes_all_digit m
  have hh : 48 ≤ h ∧ h ≤ 57 :=
    all_digit_bounds hall h (by rw [hht]; exact List.mem_cons_self h t)
  have hval : digitsVal (h :: t) = m := by rw [← hht]; exact digitsVal_natToDecBytes m
  rw [hht] at hall
  rw [hht]
  simp only [parseSignDigits]
  rw [if_neg (by omega : ¬ h = 43), if_neg (by omega : ¬ h = 45), if_pos hall, hval]

theorem parseI64_natToDecBytes (m : Nat) (hm : m ≤ 2 ^ 63 - 1) :
    parseI64 (natToDecBytes m) = some (m : Int) := by
  rw [parseI64, parseSignDigits_natToDecBytes]
  show (if -(2 ^ 63) ≤ (m : Int) ∧ (m : Int) ≤ 2 ^ 63 - 1 then some (m : Int) else none) =
    some (m : Int)
  rw [if_pos (by constructor <;> omega)]

theorem parseI64_intToDecBytes (n : Int) (h1 : -(2 ^ 63) ≤ n) (h2 : n ≤ 2 ^ 63 - 1) :
    parseI64 (intToDecBytes n) = some n := by
  rw [intToDecBytes]
  by_cases h : n < 0
  · rw [if_pos h]
    have hps : parseSignDigits (45 :: natToDecBytes (-n).toNat) =
        if natToDecBytes (-n).toNat ≠ [] ∧ (natToDecBytes (-n).toNat).all isDigit = true
        then some (-((digitsVal (natToDecBytes (-n).toNat) : Nat) : Int)) else none := rfl
    have hv : -(((digitsVal (natToDecBytes (-n).toNat) : Nat)) : Int) = n := by
      rw [digitsVal_natToDecBytes, Int.toNat_of_nonneg (by omega : (0 : Int) ≤ -n)]
      omega
    rw [parseI64, hps, if_pos ⟨natToDecBytes_ne_nil _, natToDecBytes_all_digit _⟩, hv]
    show (if -(2 ^ 63) ≤ n ∧ n ≤ 2 ^ 63 - 1 then some n else none) = some n
    rw [if_pos ⟨h1, h2⟩]
  · rw [if_neg h]
    have hcast : ((n.toNat : Nat) : Int) = n := Int.toNat_of_nonneg (by omega)
    rw [parseI64_natToDecBytes n.toNat (by omega), hcast]

theorem parseSignDigits_ascii : ∀ (l : List Nat) (v : Int),
    parseSignDigits l = some v → ∀ b ∈ l, b ≤ 127 := by
  intro l v h b hb
  cases l with
  | nil => simp [parseSignDigits] at h
  | cons a t =>
    simp only [parseSignDigits] at h
    by_cases h43 : a = 43
    · rw [if_pos h43] at h
      by_cases hc : t ≠ [] ∧ t.all isDigit = true
      · rcases List.mem_cons.mp hb with h1 | h2
        · omega
        · have := all_digit_bounds hc.2 b h2; omega
      · rw [if_neg hc] at h; cases h
    · rw [if_neg h43] at h
      by_cases h45 : a = 45
      · rw [if_pos h45] at h
        by_cases hc : t ≠ [] ∧ t.all isDigit = true
        · rcases List.mem_cons.mp hb with h1 | h2
          · omega
          · have := all_digit_bounds hc.2 b h2; omega
        · rw [if_neg hc] at h; cases h
      · rw [if_neg h45] at h
        by_cases hc : (a :: t).all isDigit = true
        · have := all_digit_bounds hc b hb; omega
        · rw [if_neg hc] at h; cases h

theorem validUtf8_of_parseI64 (l : List Nat) (v : Int) (h : parseI64 l = some v) :
    validUtf8 l = true := by
  rw [parseI64] at h
  cases hq : parseSignDigits l with
  | none => rw [hq] at h; cases h
  | some u => exact validUtf8_of_ascii l (parseSignDigits_ascii l u hq)

theorem parseLineInt_natToDecBytes (m : Nat) (hm : m ≤ 2 ^ 63 - 1) :
    parseLineInt (natToDecBytes m) = Except.ok (m : Int) := by
  rw [parseLineInt, if_pos (validUtf8_natToDecBytes m), parseI64_natToDecBytes m hm]

theorem parseI64_eq_some (l : List Nat) (v : Int) (h : parseI64 l = some v) :
    parseSignDigits l = some v ∧ -(2 ^ 63) ≤ v ∧ v ≤ 2 ^ 63 - 1 := by
  rw [parseI64] at h
  cases hq : parseSignDigits l with
  | none => rw [hq] at h; cases h
  | some u =>
    rw [hq] at h
    have h2 : (if -(2 ^ 63) ≤ u ∧ u ≤ 2 ^ 63 - 1 then some u else none) = some v := h
    by_cases hb : -(2 ^ 63) ≤ u ∧ u ≤ 2 ^ 63 - 1
    · rw [if_pos hb] at h2
      injection h2 with h3
      subst h3
      exact ⟨rfl, hb⟩
    · rw [if_neg hb] at h2; cases h2

theorem parseLineInt_ok (l : List Nat) (v : Int) (h : parseLineInt l = Except.ok v) :
    validUtf8 l = true ∧ parseI64 l = some v := by
  rw [parseLineInt] at h
  by_cases hu : validUtf8 l = true
  · rw [if_pos hu] at h
    refine ⟨hu, ?_⟩
    cases hp : parseI64 l with
    | none => rw [hp] at h; cases h
    | some w =>
      rw [hp] at h
      have h2 : Except.ok (ε := ParseError) w = Except.ok v := h
      cases h2; rfl
  · rw [if_neg hu] at h; cases h

theorem parseLineInt_bounds (l : List Nat) (v : Int) (h : parseLineInt l = Except.ok v) :
    -(2 ^ 63) ≤ v ∧ v ≤ 2 ^ 63 - 1 :=
  (parseI64_eq_some l v (parseLineInt_ok l v h).2).2

/-! ### Unfolding lemmas for the decoder -/

theorem from_bytes_nil : RespType.from_bytes [] = DecodeResult.err ParseError.unexpectedEof := rfl

theorem from_bytes_plus (rest : List Nat) :
    RespType.from_bytes (43 :: rest) = RespType.read_string rest := rfl

theorem from_bytes_minus (rest : List Nat) :
    RespType.from_bytes (45 :: rest) = toError (RespType.read_string rest) := rfl

theorem from_bytes_colon (rest : List Nat) :
    RespType.from_bytes (58 :: rest) = toInteger (RespType.read_string rest) := rfl

theorem from_bytes_dollar (rest : List Nat) :
    RespType.from_bytes (36 :: rest) = RespType.read_bulk_string rest := rfl

theorem from_bytes_star_raw (rest : List Nat) :
    RespType.from_bytes (42 :: rest) =
      RespType.read_array (fun bs => decodeF (rest.length + 1) bs) rest := rfl

theorem from_bytes_other (b : Nat) (rest : List Nat)
    (h43 : b ≠ 43) (h45 : b ≠ 45) (h58 : b ≠ 58) (h36 : b ≠ 36) (h42 : b ≠ 42) :
    RespType.from_bytes (b :: rest) = DecodeResult.err (ParseError.unexpectedByte b) := by
  show decodeF ((b :: rest).length + 1) (b :: rest) = _
  simp only [decodeF]
  rw [if_neg h43, if_neg h45, if_neg h58, if_neg h36, if_neg h42]

theorem read_string_ok (bytes rem line : List Nat)
    (hl : RespType.read_line bytes = Except.ok (rem, line)) (hu : validUtf8 line = true) :
    RespType.read_string bytes = DecodeResult.ok rem (RespType.simpleString line) := by
  rw [RespType.read_string, hl]
  show (if validUtf8 line = true then _ else _) = _
  rw [if_pos hu]

theorem read_string_utf8_err (bytes rem line : List Nat)
    (hl : RespType.read_line bytes = Except.ok (rem, line)) (hu : validUtf8 line = false) :
    RespType.read_string bytes = DecodeResult.err ParseError.fromUtf8Error := by
  rw [RespType.read_string, hl]
  show (if validUtf8 line = true then _ else _) = _
  rw [if_neg (by rw [hu]; exact Bool.false_ne_true)]

theorem read_string_line_err (bytes : List Nat) (e : ParseError)
    (hl : RespType.read_line bytes = Except.error e) :
    RespType.read_string bytes = DecodeResult.err e := by
  rw [RespType.read_string, hl]

theorem read_string_inv (bytes rem : List Nat) (v : RespType)
    (h : RespType.read_string bytes = DecodeResult.ok rem v) :
    ∃ line, v = RespType.simpleString line ∧
      RespType.read_line bytes = Except.ok (rem, line) ∧ validUtf8 line = true := by
  rw [RespType.read_string] at h
  cases hl : RespType.read_line bytes with
  | error e => rw [hl] at h; cases h
  | ok pr =>
    obtain ⟨rem2, line⟩ := pr
    rw [hl] at h
    have h2 : (if validUtf8 line = true then DecodeResult.ok rem2 (RespType.simpleString line)
        else DecodeResult.err ParseError.fromUtf8Error) = DecodeResult.ok rem v := h
    by_cases hu : validUtf8 line = true
    · rw [if_pos hu] at h2
      cases h2
      exact ⟨line, rfl, rfl, hu⟩
    · rw [if_neg hu] at h2; cases h2

theorem read_bulk_string_eq (bytes rem line : List Nat) (size : Int)
    (hl : RespType.read_line bytes = Except.ok (rem, line))
    (hp : parseLineInt line = Except.ok size) :
    RespType.read_bulk_string bytes =
      (if size = -1 then DecodeResult.ok rem (RespType.bulkString none)
       else if rem.length < (usizeOfI64 size + 2) % 2 ^ 64 then
         DecodeResult.err ParseError.unexpectedEof
       else if usizeOfI64 size ≤ rem.length then
         DecodeResult.ok (rem.drop ((usizeOfI64 size + 2) % 2 ^ 64))
           (RespType.bulkString (some (rem.take (usizeOfI64 size))))
       else DecodeResult.crash) := by
  rw [RespType.read_bulk_string, hl]
  show (match parseLineInt line with
    | Except.error e => DecodeResult.err e
    | Except.ok size => _) = _
  rw [hp]

theorem read_bulk_string_err_line (bytes : List Nat) (e : ParseError)
    (hl : RespType.read_line bytes = Except.error e) :
    RespType.read_bulk_string bytes = DecodeResult.err e := by
  rw [RespType.read_bulk_string, hl]

theorem read_bulk_string_err_parse (bytes rem line : List Nat) (e : ParseError)
    (hl : RespType.read_line bytes = Except.ok (rem, line))
    (hp : parseLineInt line = Except.error e) :
    RespType.read_bulk_string bytes = DecodeResult.err e := by
  rw [RespType.read_bulk_string, hl]
  show (match parseLineInt line with
    | Except.error e => DecodeResult.err e
    | Except.ok size => _) = _
  rw [hp]

theorem read_array_eq (d : List Nat → DecodeResult) (bytes rem line : List Nat) (size : Int)
    (hl : RespType.read_line bytes = Except.ok (rem, line))
    (hp : parseLineInt line = Except.ok size) :
    RespType.read_array d bytes = readElemsGo d size.toNat rem [] := by
  rw [RespType.read_array, hl]
  show (match parseLineInt line with
    | Except.error e => DecodeResult.err e
    | Except.ok size => readElemsGo d size.toNat rem []) = _
  rw [hp]

theorem read_array_err_line (d : List Nat → DecodeResult) (bytes : List Nat) (e : ParseError)
    (hl : RespType.read_line bytes = Except.error e) :
    RespType.read_array d bytes = DecodeResult.err e := by
  rw [RespType.read_array, hl]

theorem read_array_err_parse (d : List Nat → DecodeResult) (bytes rem line : List Nat)
    (e : ParseError) (hl : RespType.read_line bytes = Except.ok (rem, line))
    (hp : parseLineInt line = Except.error e) :
    RespType.read_array d bytes = DecodeResult.err e := by
  rw [RespType.read_array, hl]
  show (match parseLineInt line with
    | Except.error e => DecodeResult.err e
    | Except.ok size => readElemsGo d size.toNat rem []) = _
  rw [hp]

/-! ### Progress: every successful decode consumes at least three bytes -/

theorem toError_ok_inv (x : DecodeResult) (rem : List Nat) (v : RespType)
    (h : toError x = DecodeResult.ok rem v) :
    ∃ s, x = DecodeResult.ok rem (RespType.simpleString s) ∧ v = RespType.error s := by
  cases x with
  | ok r w =>
    cases w with
    | simpleString s =>
      have h2 : DecodeResult.ok r (RespType.error s) = DecodeResult.ok rem v := h
      cases h2
      exact ⟨s, rfl, rfl⟩
    | error s =>
      have h2 : DecodeResult.err ParseError.unforeseenError = DecodeResult.ok rem v := h
      cases h2
    | integer n =>
      have h2 : DecodeResult.err ParseError.unforeseenError = DecodeResult.ok rem v := h
      cases h2
    | bulkString ob =>
      have h2 : DecodeResult.err ParseError.unforeseenError = DecodeResult.ok rem v := h
      cases h2
    | array items =>
      have h2 : DecodeResult.err ParseError.unforeseenError = DecodeResult.ok rem v := h
      cases h2
  | err e => have h2 : DecodeResult.err e = DecodeResult.ok rem v := h; cases h2
  | crash => have h2 : DecodeResult.crash = DecodeResult.ok rem v := h; cases h2
  | outOfFuel => have h2 : DecodeResult.outOfFuel = DecodeResult.ok rem v := h; cases h2

theorem toInteger_ok_inv (x : DecodeResult) (rem : List Nat) (v : RespType)
    (h : toInteger x = DecodeResult.ok rem v) :
    ∃ s, x = DecodeResult.ok rem (RespType.simpleString s) := by
  cases x with
  | ok r w =>
    cases w with
    | simpleString s =>
      have h2 : (match parseI64 s with
        | some v2 => DecodeResult.ok r (RespType.integer v2)
        | none => DecodeResult.err ParseError.parseIntError) = DecodeResult.ok rem v := h
      cases hp : parseI64 s with
      | some v2 =>
        rw [hp] at h2
        have h3 : DecodeResult.ok r (RespType.integer v2) = DecodeResult.ok rem v := h2
        cases h3
        exact ⟨s, rfl⟩
      | none =>
        rw [hp] at h2
        have h3 : DecodeResult.err ParseError.parseIntError = DecodeResult.ok rem v := h2
        cases h3
    | error s =>
      have h2 : DecodeResult.err ParseError.unforeseenError = DecodeResult.ok rem v := h
      cases h2
    | integer n =>
      have h2 : DecodeResult.err ParseError.unforeseenError = DecodeResult.ok rem v := h
      cases h2
    | bulkString ob =>
      have h2 : DecodeResult.err ParseError.unforeseenError = DecodeResult.ok rem v := h
      cases h2
    | array items =>
      have h2 : DecodeResult.err ParseError.unforeseenError = DecodeResult.ok rem v := h
      cases h2
  | err e => have h2 : DecodeResult.err e = DecodeResult.ok rem v := h; cases h2
  | crash => have h2 : DecodeResult.crash = DecodeResult.ok rem v := h; cases h2
  | outOfFuel => have h2 : DecodeResult.outOfFuel = DecodeResult.ok rem v := h; cases h2

theorem read_bulk_string_shrink (bytes rem : List Nat) (v : RespType)
    (h : RespType.read_bulk_string bytes = DecodeResult.ok rem v) :
    rem.length + 2 ≤ bytes.length := by
  cases hl : RespType.read_line bytes with
  | error e => rw [read_bulk_string_err_line bytes e hl] at h; cases h
  | ok pr =>
    obtain ⟨remaining, line⟩ := pr
    have hs := (read_line_shrink bytes remaining line hl).1
    cases hp : parseLineInt line with
    | error e => rw [read_bulk_string_err_parse bytes remaining line e hl hp] at h; cases h
    | ok size =>
      rw [read_bulk_string_eq bytes remaining line size hl hp] at h
      by_cases hm1 : size = -1
      · rw [if_pos hm1] at h
        cases h
        omega
      · rw [if_neg hm1] at h
        by_cases hlt : remaining.length < (usizeOfI64 size + 2) % 2 ^ 64
        · rw [if_pos hlt] at h; cases h
        · rw [if_neg hlt] at h
          by_cases hle : usizeOfI64 size ≤ remaining.length
          · rw [if_pos hle] at h
            cases h
            rw [List.length_drop]
            omega
          · rw [if_neg hle] at h; cases h

theorem readElemsGo_shrink (d : List Nat → DecodeResult)
    (hd : ∀ b r v, d b = DecodeResult.ok r v → r.length ≤ b.length) :
    ∀ n bytes acc rem v, readElemsGo d n bytes acc = DecodeResult.ok rem v →
      rem.length ≤ bytes.length
  | 0, bytes, acc, rem, v, h => by
    have h2 : DecodeResult.ok bytes (RespType.array acc) = DecodeResult.ok rem v := h
    cases h2
    exact Nat.le_refl _
  | n + 1, bytes, acc, rem, v, h => by
    simp only [readElemsGo] at h
    cases hd2 : d bytes with
    | ok r2 v2 =>
      rw [hd2] at h
      have h4 : readElemsGo d n r2 (acc ++ [v2]) = DecodeResult.ok rem v := h
      have h3 := readElemsGo_shrink d hd n r2 (acc ++ [v2]) rem v h4
      exact Nat.le_trans h3 (hd bytes r2 v2 hd2)
    | err e =>
      rw [hd2] at h
      have h4 : DecodeResult.err e = DecodeResult.ok rem v := h
      cases h4
    | crash =>
      rw [hd2] at h
      have h4 : DecodeResult.crash = DecodeResult.ok rem v := h
      cases h4
    | outOfFuel =>
      rw [hd2] at h
      have h4 : DecodeResult.outOfFuel = DecodeResult.ok rem v := h
      cases h4

theorem decodeF_shrink : ∀ fuel bytes rem v,
    decodeF fuel bytes = DecodeResult.ok rem v → rem.length + 3 ≤ bytes.length
  | 0, bytes, rem, v, h => by
    have h2 : DecodeResult.outOfFuel = DecodeResult.ok rem v := h
    cases h2
  | fuel + 1, [], rem, v, h => by
    have h2 : DecodeResult.err ParseError.unexpectedEof = DecodeResult.ok rem v := h
    cases h2
  | fuel + 1, b :: rest, rem, v, h => by
    have h2 : (if b = 43 then RespType.read_string rest
        else if b = 45 then toError (RespType.read_string rest)
        else if b = 58 then toInteger (RespType.read_string rest)
        else if b = 36 then RespType.read_bulk_string rest
        else if b = 42 then RespType.read_array (fun bs => decodeF fuel bs) rest
        else DecodeResult.err (ParseError.unexpectedByte b)) = DecodeResult.ok rem v := h
    by_cases h43 : b = 43
    · rw [if_pos h43] at h2
      obtain ⟨line, _, hl, _⟩ := read_string_inv rest rem v h2
      have := (read_line_shrink rest rem line hl).1
      simp only [List.length_cons]
      omega
    · rw [if_neg h43] at h2
      by_cases h45 : b = 45
      · rw [if_pos h45] at h2
        obtain ⟨s, hx, _⟩ := toError_ok_inv _ rem v h2
        obtain ⟨line, _, hl, _⟩ := read_string_inv rest rem _ hx
        have := (read_line_shrink rest rem line hl).1
        simp only [List.length_cons]
        omega
      · rw [if_neg h45] at h2
        by_cases h58 : b = 58
        · rw [if_pos h58] at h2
          obtain ⟨s, hx⟩ := toInteger_ok_inv _ rem v h2
          obtain ⟨line, _, hl, _⟩ := read_string_inv rest rem _ hx
          have := (read_line_shrink rest rem line hl).1
          simp only [List.length_cons]
          omega
        · rw [if_neg h58] at h2
          by_cases h36 : b = 36
          · rw [if_pos h36] at h2
            have := read_bulk_string_shrink rest rem v h2
            simp only [List.length_cons]
            omega
          · rw [if_neg h36] at h2
            by_cases h42 : b = 42
            · rw [if_pos h42] at h2
              cases hl : RespType.read_line rest with
              | error e => rw [read_array_err_line _ rest e hl] at h2; cases h2
              | ok pr =>
                obtain ⟨remaining, line⟩ := pr
                have hs := (read_line_shrink rest remaining line hl).1
                cases hp : parseLineInt line with
                | error e => rw [read_array_err_parse _ rest remaining line e hl hp] at h2; cases h2
                | ok size =>
                  rw [read_array_eq _ rest remaining line size hl hp] at h2
                  have hd : ∀ b2 r2 v2, decodeF fuel b2 = DecodeResult.ok r2 v2 →
                      r2.length ≤ b2.length := fun b2 r2 v2 hh => by
                    have := decodeF_shrink fuel b2 r2 v2 hh
                    omega
                  have := readElemsGo_shrink (fun bs => decodeF fuel bs) hd
                    size.toNat remaining [] rem v h2
                  simp only [List.length_cons]
                  omega
            · rw [if_neg h42] at h2
              cases h2

theorem from_bytes_shrink (bytes rem : List Nat) (v : RespType)
    (h : RespType.from_bytes bytes = DecodeResult.ok rem v) : rem.length + 3 ≤ bytes.length :=
  decodeF_shrink (bytes.length + 1) bytes rem v h

/-! ### The fuel supplied by from_bytes is sufficient -/

theorem readElemsGo_congr (K : Nat) (d1 d2 : List Nat → DecodeResult)
    (heq : ∀ b, b.length ≤ K → d1 b = d2 b)
    (hshrink : ∀ b r v, d1 b = DecodeResult.ok r v → r.length ≤ b.length) :
    ∀ n bytes acc, bytes.length ≤ K → readElemsGo d1 n bytes acc = readElemsGo d2 n bytes acc
  | 0, bytes, acc, _ => rfl
  | n + 1, bytes, acc, hK => by
    simp only [readElemsGo]
    rw [← heq bytes hK]
    cases hd : d1 bytes with
    | ok r v =>
      have hr : r.length ≤ bytes.length := hshrink bytes r v hd
      exact readElemsGo_congr K d1 d2 heq hshrink n r (acc ++ [v]) (Nat.le_trans hr hK)
    | err e => rfl
    | crash => rfl
    | outOfFuel => rfl

theorem decodeF_irrel : ∀ (L : Nat) (bytes : List Nat), bytes.length ≤ L →
    ∀ f1 f2, bytes.length < f1 → bytes.length < f2 → decodeF f1 bytes = decodeF f2 bytes
  | L, [], _, f1, f2, h1, h2 => by
    obtain ⟨g1, rfl⟩ : ∃ g, f1 = g + 1 := ⟨f1 - 1, by omega⟩
    obtain ⟨g2, rfl⟩ : ∃ g, f2 = g + 1 := ⟨f2 - 1, by omega⟩
    rfl
  | 0, b :: rest, hL, f1, f2, h1, h2 => by
    simp at hL
  | L + 1, b :: rest, hL, f1, f2, h1, h2 => by
    obtain ⟨g1, rfl⟩ : ∃ g, f1 = g + 1 := ⟨f1 - 1, by omega⟩
    obtain ⟨g2, rfl⟩ : ∃ g, f2 = g + 1 := ⟨f2 - 1, by omega⟩
    show (if b = 43 then RespType.read_string rest
        else if b = 45 then toError (RespType.read_string rest)
        else if b = 58 then toInteger (RespType.read_string rest)
        else if b = 36 then RespType.read_bulk_string rest
        else if b = 42 then RespType.read_array (fun bs => decodeF g1 bs) rest
        else DecodeResult.err (ParseError.unexpectedByte b)) =
      (if b = 43 then RespType.read_string rest
        else if b = 45 then toError (RespType.read_string rest)
        else if b = 58 then toInteger (RespType.read_string rest)
        else if b = 36 then RespType.read_bulk_string rest
        else if b = 42 then RespType.read_array (fun bs => decodeF g2 bs) rest
        else DecodeResult.err (ParseError.unexpectedByte b))
    by_cases h42 : b = 42
    · rw [if_neg (by omega : ¬ b = 43), if_neg (by omega : ¬ b = 45),
        if_neg (by omega : ¬ b = 58), if_neg (by omega : ¬ b = 36), if_pos h42,
        if_neg (by omega : ¬ b = 43), if_neg (by omega : ¬ b = 45),
        if_neg (by omega : ¬ b = 58), if_neg (by omega : ¬ b = 36), if_pos h42]
      cases hl : RespType.read_line rest with
      | error e =>
        rw [read_array_err_line _ rest e hl, read_array_err_line _ rest e hl]
      | ok pr =>
        obtain ⟨remaining, line⟩ := pr
        have hs := (read_line_shrink rest remaining line hl).1
        simp only [List.length_cons] at h1 h2 hL
        cases hp : parseLineInt line with
        | error e =>
          rw [read_array_err_parse _ rest remaining line e hl hp,
            read_array_err_parse _ rest remaining line e hl hp]
        | ok size =>
          rw [read_array_eq _ rest remaining line size hl hp,
            read_array_eq _ rest remaining line size hl hp]
          apply readElemsGo_congr remaining.length
          · intro b2 hb2
            exact decodeF_irrel L b2 (by omega) g1 g2 (by omega) (by omega)
          · intro b2 r2 v2 hh
            have := decodeF_shrink g1 b2 r2 v2 hh
            omega
          · exact Nat.le_refl _
    · by_cases h43 : b = 43
      · rw [if_pos h43, if_pos h43]
      · by_cases h45 : b = 45
        · rw [if_neg h43, if_pos h45, if_neg h43, if_pos h45]
        · by_cases h58 : b = 58
          · rw [if_neg h43, if_neg h45, if_pos h58, if_neg h43, if_neg h45, if_pos h58]
          · by_cases h36 : b = 36
            · rw [if_neg h43, if_neg h45, if_neg h58, if_pos h36,
                if_neg h43, if_neg h45, if_neg h58, if_pos h36]
            · rw [if_neg h43, if_neg h45, if_neg h58, if_neg h36, if_neg h42,
                if_neg h43, if_neg h45, if_neg h58, if_neg h36, if_neg h42]

theorem from_bytes_eq_decodeF (fuel : Nat) (bytes : List Nat) (h : bytes.length < fuel) :
    decodeF fuel bytes = RespType.from_bytes bytes :=
  decodeF_irrel bytes.length bytes (Nat.le_refl _) fuel (bytes.length + 1) h
    (Nat.lt_succ_self _)

theorem readElemsGo_eq_decodeElems (K : Nat) (d : List Nat → DecodeResult)
    (heq : ∀ b, b.length ≤ K → d b = RespType.from_bytes b)
    (hshrink : ∀ b r v, d b = DecodeResult.ok r v → r.length ≤ b.length) :
    ∀ n bytes acc, bytes.length ≤ K → readElemsGo d n bytes acc = decodeElems n bytes acc
  | 0, bytes, acc, _ => rfl
  | n + 1, bytes, acc, hK => by
    simp only [readElemsGo, decodeElems]
    rw [← heq bytes hK]
    cases hd : d bytes with
    | ok r v =>
      have hr : r.length ≤ bytes.length := hshrink bytes r v hd
      exact readElemsGo_eq_decodeElems K d heq hshrink n r (acc ++ [v]) (Nat.le_trans hr hK)
    | err e => rfl
    | crash => rfl
    | outOfFuel => rfl

theorem from_bytes_star (rest rem line : List Nat) (size : Int)
    (hl : RespType.read_line rest = Except.ok (rem, line))
    (hp : parseLineInt line = Except.ok size) :
    RespType.from_bytes (42 :: rest) = decodeElems size.toNat rem [] := by
  rw [from_bytes_star_raw, read_array_eq _ rest rem line size hl hp]
  have hs := (read_line_shrink rest rem line hl).1
  apply readElemsGo_eq_decodeElems rem.length
  · intro b2 hb2
    exact from_bytes_eq_decodeF (rest.length + 1) b2 (by omega)
  · intro b2 r2 v2 hh
    have := decodeF_shrink (rest.length + 1) b2 r2 v2 hh
    omega
  · exact Nat.le_refl _

theorem from_bytes_star_err_line (rest : List Nat) (e : ParseError)
    (hl : RespType.read_line rest = Except.error e) :
    RespType.from_bytes (42 :: rest) = DecodeResult.err e := by
  rw [from_bytes_star_raw]
  exact read_array_err_line _ rest e hl

theorem from_bytes_star_err_parse (rest rem line : List Nat) (e : ParseError)
    (hl : RespType.read_line rest = Except.ok (rem, line))
    (hp : parseLineInt line = Except.error e) :
    RespType.from_bytes (42 :: rest) = DecodeResult.err e := by
  rw [from_bytes_star_raw]
  exact read_array_err_parse _ rest rem line e hl hp

/-! ### Structural induction over RespType values -/

def RespType.indOn (motive : RespType → Prop)
    (hss : ∀ s, motive (RespType.simpleString s))
    (herr : ∀ s, motive (RespType.error s))
    (hint : ∀ n, motive (RespType.integer n))
    (hbulk : ∀ b, motive (RespType.bulkString b))
    (harr : ∀ items, (∀ v, v ∈ items → motive v) → motive (RespType.array items)) :
    ∀ v, motive v
  | RespType.simpleString s => hss s
  | RespType.error s => herr s
  | RespType.integer n => hint n
  | RespType.bulkString b => hbulk b
  | RespType.array items =>
      harr items (fun x hx => RespType.indOn motive hss herr hint hbulk harr x)
termination_by v => sizeOf v
decreasing_by
  have hx2 := List.sizeOf_lt_of_mem hx
  simp only [RespType.array.sizeOf_spec]
  omega

theorem canonical_payload {s : List Nat}
    (h : s.all (fun b => decide (b ≠ 13 ∧ b ≠ 10)) = true) : 13 ∉ s ∧ 10 ∉ s := by
  constructor <;> intro hc <;> simpa using List.all_eq_true.mp h _ hc

theorem wellFormedList_mem : ∀ items, RespType.wellFormedList items = true →
    ∀ v ∈ items, RespType.wellFormed v = true
  | [], _, v, hv => absurd hv (List.not_mem_nil v)
  | x :: xs, h, v, hv => by
    have h2 : (RespType.wellFormed x && RespType.wellFormedList xs) = true := h
    rw [Bool.and_eq_true] at h2
    rcases List.mem_cons.mp hv with h1 | h3
    · subst h1; exact h2.1
    · exact wellFormedList_mem xs h2.2 v h3

theorem canonicalList_mem : ∀ items, RespType.canonicalList items = true →
    ∀ v ∈ items, RespType.canonical v = true
  | [], _, v, hv => absurd hv (List.not_mem_nil v)
  | x :: xs, h, v, hv => by
    have h2 : (RespType.canonical x && RespType.canonicalList xs) = true := h
    rw [Bool.and_eq_true] at h2
    rcases List.mem_cons.mp hv with h1 | h3
    · subst h1; exact h2.1
    · exact canonicalList_mem xs h2.2 v h3

theorem wellFormed_array_inv (items : List RespType)
    (h : RespType.wellFormed (RespType.array items) = true) :
    items.length ≤ 2 ^ 63 - 1 ∧ ∀ v ∈ items, RespType.wellFormed v = true := by
  have h2 : (decide (items.length ≤ 2 ^ 63 - 1) && RespType.wellFormedList items) = true := h
  rw [Bool.and_eq_true, decide_eq_true_eq] at h2
  exact ⟨h2.1, wellFormedList_mem items h2.2⟩

theorem canonical_array_inv (items : List RespType)
    (h : RespType.canonical (RespType.array items) = true) :
    ∀ v ∈ items, RespType.canonical v = true :=
  canonicalList_mem items h

theorem as_bytes_ne_nil : ∀ v, RespType.as_bytes v ≠ [] := by
  intro v
  cases v with
  | simpleString s => simp [RespType.as_bytes]
  | error s => simp [RespType.as_bytes]
  | integer n => simp [RespType.as_bytes]
  | bulkString b => cases b <;> simp [RespType.as_bytes]
  | array items => simp [RespType.as_bytes]

theorem as_bytes_list_ne_nil : ∀ items, items ≠ [] → RespType.as_bytes_list items ≠ []
  | [], h, _ => h rfl
  | v :: vs, _, hc => by
    have h2 : RespType.as_bytes v ++ RespType.as_bytes_list vs = [] := hc
    rw [List.append_eq_nil] at h2
    exact as_bytes_ne_nil v h2.1

/-! ### Round-trip on the canonical well-formed subset -/

theorem toInteger_ok_some (rem s : List Nat) (n : Int) (hp : parseI64 s = some n) :
    toInteger (DecodeResult.ok rem (RespType.simpleString s)) =
      DecodeResult.ok rem (RespType.integer n) := by
  simp only [toInteger]
  rw [hp]

theorem toInteger_ok_none (rem s : List Nat) (hp : parseI64 s = none) :
    toInteger (DecodeResult.ok rem (RespType.simpleString s)) =
      DecodeResult.err ParseError.parseIntError := by
  simp only [toInteger]
  rw [hp]

theorem decodeElems_encode : ∀ (items acc : List RespType) (tail : List Nat),
    (∀ v, v ∈ items → ∀ t : List Nat,
      RespType.from_bytes (RespType.as_bytes v ++ t) = DecodeResult.ok t v) →
    decodeElems items.length (RespType.as_bytes_list items ++ tail) acc =
      DecodeResult.ok tail (RespType.array (acc ++ items))
  | [], acc, tail, _ => by
    simp only [List.length_nil, RespType.as_bytes_list, List.nil_append, decodeElems,
      List.append_nil]
  | v :: vs, acc, tail, h => by
    simp only [List.length_cons, decodeElems]
    have hv := h v (List.mem_cons_self v vs) (RespType.as_bytes_list vs ++ tail)
    have heq : RespType.as_bytes_list (v :: vs) ++ tail =
        RespType.as_bytes v ++ (RespType.as_bytes_list vs ++ tail) := by
      simp [RespType.as_bytes_list, List.append_assoc]
    rw [heq, hv]
    show decodeElems vs.length (RespType.as_bytes_list vs ++ tail) (acc ++ [v]) =
      DecodeResult.ok tail (RespType.array (acc ++ v :: vs))
    rw [decodeElems_encode vs (acc ++ [v]) tail
      (fun w hw t => h w (List.mem_cons_of_mem v hw) t)]
    simp

theorem roundtrip_with_tail : ∀ v : RespType, RespType.wellFormed v = true →
    RespType.canonical v = true → ∀ tail : List Nat,
    RespType.from_bytes (RespType.as_bytes v ++ tail) = DecodeResult.ok tail v := by
  intro v
  induction v using RespType.indOn with
  | hss s =>
    intro hwf hc tail
    have h13 : 13 ∉ s := (canonical_payload hc).1
    have heq : RespType.as_bytes (RespType.simpleString s) ++ tail =
        43 :: (s ++ 13 :: 10 :: tail) := by
      simp [RespType.as_bytes]
    rw [heq, from_bytes_plus]
    exact read_string_ok _ tail s (read_line_boundary s tail h13) hwf
  | herr s =>
    intro hwf hc tail
    have h13 : 13 ∉ s := (canonical_payload hc).1
    have heq : RespType.as_bytes (RespType.error s) ++ tail =
        45 :: (s ++ 13 :: 10 :: tail) := by
      simp [RespType.as_bytes]
    rw [heq, from_bytes_minus,
      read_string_ok _ tail s (read_line_boundary s tail h13) hwf]
    rfl
  | hint n =>
    intro hwf hc tail
    have hb : -(2 ^ 63) ≤ n ∧ n ≤ 2 ^ 63 - 1 := of_decide_eq_true hwf
    have heq : RespType.as_bytes (RespType.integer n) ++ tail =
        58 :: (intToDecBytes n ++ 13 :: 10 :: tail) := by
      simp [RespType.as_bytes]
    rw [heq, from_bytes_colon,
      read_string_ok _ tail _ (read_line_boundary _ tail (no13_intToDecBytes n))
        (validUtf8_intToDecBytes n),
      toInteger_ok_some tail _ n (parseI64_intToDecBytes n hb.1 hb.2)]
  | hbulk b =>
    intro hwf hc tail
    cases b with
    | none =>
      have heq : RespType.as_bytes (RespType.bulkString none) ++ tail =
          36 :: ([45, 49] ++ 13 :: 10 :: tail) := by
        simp [RespType.as_bytes]
      rw [heq, from_bytes_dollar]
      have hl := read_line_boundary [45, 49] tail (by decide)
      have hp : parseLineInt [45, 49] = Except.ok (-1) := rfl
      rw [read_bulk_string_eq _ tail [45, 49] (-1) hl hp, if_pos rfl]
    | some b =>
      have hlen : b.length ≤ 2 ^ 63 - 1 := of_decide_eq_true hwf
      have heq : RespType.as_bytes (RespType.bulkString (some b)) ++ tail =
          36 :: (natToDecBytes b.length ++ 13 :: 10 :: (b ++ 13 :: 10 :: tail)) := by
        simp [RespType.as_bytes]
      rw [heq, from_bytes_dollar]
      have hl := read_line_boundary (natToDecBytes b.length) (b ++ 13 :: 10 :: tail)
        (no13_natToDecBytes _)
      have hp := parseLineInt_natToDecBytes b.length hlen
      rw [read_bulk_string_eq _ _ _ _ hl hp]
      rw [if_neg (by omega : ¬ ((b.length : Nat) : Int) = -1)]
      have hu : usizeOfI64 ((b.length : Nat) : Int) = b.length := by
        rw [usizeOfI64]
        omega
      rw [hu]
      have hend : (b.length + 2) % 2 ^ 64 = b.length + 2 := Nat.mod_eq_of_lt (by omega)
      rw [hend]
      have hlen2 : (b ++ 13 :: 10 :: tail).length = b.length + 2 + tail.length := by
        simp
        omega
      rw [if_neg (by rw [hlen2]; omega)]
      rw [if_pos (by rw [hlen2]; omega)]
      have htake : (b ++ 13 :: 10 :: tail).take b.length = b := List.take_left b _
      have hdrop : (b ++ 13 :: 10 :: tail).drop (b.length + 2) = tail := by
        rw [← List.drop_drop, List.drop_left]
        rfl
      rw [htake, hdrop]
  | harr items ih =>
    intro hwf hc tail
    obtain ⟨hlen, hwfmem⟩ := wellFormed_array_inv items hwf
    have hcmem := canonical_array_inv items hc
    have heq : RespType.as_bytes (RespType.array items) ++ tail =
        42 :: (natToDecBytes items.length ++
          13 :: 10 :: (RespType.as_bytes_list items ++ tail)) := by
      simp [RespType.as_bytes]
    rw [heq]
    have hl := read_line_boundary (natToDecBytes items.length)
      (RespType.as_bytes_list items ++ tail) (no13_natToDecBytes _)
    have hp := parseLineInt_natToDecBytes items.length hlen
    rw [from_bytes_star _ _ _ _ hl hp]
    have ht : ((items.length : Nat) : Int).toNat = items.length := by omega
    rw [ht]
    rw [decodeElems_encode items [] tail
      (fun v hv t => ih v hv (hwfmem v hv) (hcmem v hv) t)]
    simp

/-! ### Truncation: removing the final byte of an encoding gives UnexpectedEof -/

theorem decodeElems_trunc : ∀ (items : List RespType), items ≠ [] →
    (∀ v, v ∈ items → ∀ t : List Nat,
      RespType.from_bytes (RespType.as_bytes v ++ t) = DecodeResult.ok t v) →
    (∀ v, v ∈ items →
      RespType.from_bytes ((RespType.as_bytes v).dropLast) =
        DecodeResult.err ParseError.unexpectedEof) →
    ∀ acc, decodeElems items.length ((RespType.as_bytes_list items).dropLast) acc =
      DecodeResult.err ParseError.unexpectedEof
  | [], h, _, _, _ => absurd rfl h
  | [v], _, hrt, htr, acc => by
    simp only [List.length_cons, List.length_nil, decodeElems]
    have heq : RespType.as_bytes_list [v] = RespType.as_bytes v := by
      simp [RespType.as_bytes_list]
    rw [heq, htr v (List.mem_cons_self v [])]
  | v :: v2 :: vs, _, hrt, htr, acc => by
    simp only [List.length_cons, decodeElems]
    have hne : RespType.as_bytes_list (v2 :: vs) ≠ [] :=
      as_bytes_list_ne_nil _ (by simp)
    have heq : (RespType.as_bytes_list (v :: v2 :: vs)).dropLast =
        RespType.as_bytes v ++ (RespType.as_bytes_list (v2 :: vs)).dropLast := by
      show (RespType.as_bytes v ++ RespType.as_bytes_list (v2 :: vs)).dropLast = _
      rw [List.dropLast_append_of_ne_nil _ hne]
    rw [heq, hrt v (List.mem_cons_self _ _)]
    show decodeElems (v2 :: vs).length
        ((RespType.as_bytes_list (v2 :: vs)).dropLast) (acc ++ [v]) =
      DecodeResult.err ParseError.unexpectedEof
    exact decodeElems_trunc (v2 :: vs) (by simp)
      (fun w hw t => hrt w (List.mem_cons_of_mem v hw) t)
      (fun w hw => htr w (List.mem_cons_of_mem v hw)) (acc ++ [v])

theorem truncation_eof : ∀ v : RespType, RespType.wellFormed v = true →
    RespType.canonical v = true →
    RespType.from_bytes ((RespType.as_bytes v).dropLast) =
      DecodeResult.err ParseError.unexpectedEof := by
  intro v
  induction v using RespType.indOn with
  | hss s =>
    intro hwf hc
    have h13 : 13 ∉ s := (canonical_payload hc).1
    have heq : (RespType.as_bytes (RespType.simpleString s)).dropLast =
        43 :: (s ++ [13]) := by
      show ((43 :: s) ++ [13, 10]).dropLast = _
      rw [List.dropLast_append_of_ne_nil _ (by simp : ([13, 10] : List Nat) ≠ [])]
      simp
    have hl : RespType.read_line (s ++ [13]) = Except.error ParseError.unexpectedEof := by
      rw [RespType.read_line, findCrlf_append_cr s h13]
    rw [heq, from_bytes_plus, read_string_line_err _ _ hl]
  | herr s =>
    intro hwf hc
    have h13 : 13 ∉ s := (canonical_payload hc).1
    have heq : (RespType.as_bytes (RespType.error s)).dropLast = 45 :: (s ++ [13]) := by
      show ((45 :: s) ++ [13, 10]).dropLast = _
      rw [List.dropLast_append_of_ne_nil _ (by simp : ([13, 10] : List Nat) ≠ [])]
      simp
    have hl : RespType.read_line (s ++ [13]) = Except.error ParseError.unexpectedEof := by
      rw [RespType.read_line, findCrlf_append_cr s h13]
    rw [heq, from_bytes_minus, read_string_line_err _ _ hl]
    rfl
  | hint n =>
    intro hwf hc
    have heq : (RespType.as_bytes (RespType.integer n)).dropLast =
        58 :: (intToDecBytes n ++ [13]) := by
      show ((58 :: intToDecBytes n) ++ [13, 10]).dropLast = _
      rw [List.dropLast_append_of_ne_nil _ (by simp : ([13, 10] : List Nat) ≠ [])]
      simp
    have hl : RespType.read_line (intToDecBytes n ++ [13]) =
        Except.error ParseError.unexpectedEof := by
      rw [RespType.read_line, findCrlf_append_cr _ (no13_intToDecBytes n)]
    rw [heq, from_bytes_colon, read_string_line_err _ _ hl]
    rfl
  | hbulk b =>
    intro hwf hc
    cases b with
    | none => rfl
    | some b =>
      have hlen : b.length ≤ 2 ^ 63 - 1 := of_decide_eq_true hwf
      have heq : (RespType.as_bytes (RespType.bulkString (some b))).dropLast =
          36 :: (natToDecBytes b.length ++ 13 :: 10 :: (b ++ [13])) := by
        show ((36 :: (natToDecBytes b.length ++ [13, 10] ++ b)) ++ [13, 10]).dropLast = _
        rw [List.dropLast_append_of_ne_nil _ (by simp : ([13, 10] : List Nat) ≠ [])]
        simp [List.append_assoc]
      rw [heq, from_bytes_dollar]
      have hl := read_line_boundary (natToDecBytes b.length) (b ++ [13])
        (no13_natToDecBytes _)
      have hp := parseLineInt_natToDecBytes b.length hlen
      rw [read_bulk_string_eq _ _ _ _ hl hp]
      rw [if_neg (by omega : ¬ ((b.length : Nat) : Int) = -1)]
      have hu : usizeOfI64 ((b.length : Nat) : Int) = b.length := by
        rw [usizeOfI64]
        omega
      rw [hu]
      have hend : (b.length + 2) % 2 ^ 64 = b.length + 2 := Nat.mod_eq_of_lt (by omega)
      rw [hend]
      rw [if_pos (by
        simp only [List.length_append, List.length_cons, List.length_nil]
        omega)]
  | harr items ih =>
    intro hwf hc
    obtain ⟨hlen, hwfmem⟩ := wellFormed_array_inv items hwf
    have hcmem := canonical_array_inv items hc
    cases items with
    | nil => rfl
    | cons v0 vs0 =>
      have hne : RespType.as_bytes_list (v0 :: vs0) ≠ [] := as_bytes_list_ne_nil _ (by simp)
      have heq : (RespType.as_bytes (RespType.array (v0 :: vs0))).dropLast =
          42 :: (natToDecBytes (v0 :: vs0).length ++
            13 :: 10 :: (RespType.as_bytes_list (v0 :: vs0)).dropLast) := by
        show ((42 :: (natToDecBytes (v0 :: vs0).length ++ [13, 10])) ++
          RespType.as_bytes_list (v0 :: vs0)).dropLast = _
        rw [List.dropLast_append_of_ne_nil _ hne]
        simp [List.append_assoc]
      rw [heq]
      have hl := read_line_boundary (natToDecBytes (v0 :: vs0).length)
        ((RespType.as_bytes_list (v0 :: vs0)).dropLast) (no13_natToDecBytes _)
      have hp := parseLineInt_natToDecBytes (v0 :: vs0).length hlen
      rw [from_bytes_star _ _ _ _ hl hp]
      have ht : (((v0 :: vs0).length : Nat) : Int).toNat = (v0 :: vs0).length := by omega
      rw [ht]
      exact decodeElems_trunc (v0 :: vs0) (by simp)
        (fun w hw t => roundtrip_with_tail w (hwfmem w hw) (hcmem w hw) t)
        (fun w hw => ih w hw (hwfmem w hw) (hcmem w hw)) []

/-! ### The internal-consistency error is unreachable -/

theorem read_string_err_inv (bytes : List Nat) (e : ParseError)
    (h : RespType.read_string bytes = DecodeResult.err e) :
    e = ParseError.unexpectedEof ∨ e = ParseError.fromUtf8Error := by
  rw [RespType.read_string] at h
  cases hl : RespType.read_line bytes with
  | error e2 =>
    rw [hl] at h
    have h2 : DecodeResult.err e2 = DecodeResult.err e := h
    cases h2
    exact Or.inl (read_line_err bytes _ hl)
  | ok pr =>
    obtain ⟨rem, line⟩ := pr
    rw [hl] at h
    have h2 : (if validUtf8 line = true then DecodeResult.ok rem (RespType.simpleString line)
        else DecodeResult.err ParseError.fromUtf8Error) = DecodeResult.err e := h
    by_cases hu : validUtf8 line = true
    · rw [if_pos hu] at h2; cases h2
    · rw [if_neg hu] at h2
      have h3 : DecodeResult.err ParseError.fromUtf8Error = DecodeResult.err e := h2
      cases h3
      exact Or.inr rfl

theorem parseLineInt_err_inv (l : List Nat) (e : ParseError)
    (h : parseLineInt l = Except.error e) :
    e = ParseError.parseIntError ∨ e = ParseError.fromUtf8Error := by
  rw [parseLineInt] at h
  by_cases hu : validUtf8 l = true
  · rw [if_pos hu] at h
    cases hp : parseI64 l with
    | some v =>
      rw [hp] at h
      have h2 : (Except.ok v : Except ParseError Int) = Except.error e := h
      cases h2
    | none =>
      rw [hp] at h
      have h2 : (Except.error ParseError.parseIntError : Except ParseError Int) =
        Except.error e := h
      cases h2
      exact Or.inl rfl
  · rw [if_neg hu] at h
    have h2 : (Except.error ParseError.fromUtf8Error : Except ParseError Int) =
      Except.error e := h
    cases h2
    exact Or.inr rfl

theorem read_string_no_unforeseen (bytes : List Nat) :
    RespType.read_string bytes ≠ DecodeResult.err ParseError.unforeseenError := by
  intro h
  rcases read_string_err_inv bytes _ h with h2 | h2 <;> cases h2

theorem minus_no_unforeseen (rest : List Nat) :
    toError (RespType.read_string rest) ≠ DecodeResult.err ParseError.unforeseenError := by
  intro h
  cases hx : RespType.read_string rest with
  | ok rem v =>
    obtain ⟨line, rfl, _, _⟩ := read_string_inv rest rem v hx
    rw [hx] at h
    have h2 : DecodeResult.ok rem (RespType.error line) =
      DecodeResult.err ParseError.unforeseenError := h
    cases h2
  | err e =>
    rw [hx] at h
    have h2 : DecodeResult.err e = DecodeResult.err ParseError.unforeseenError := h
    cases h2
    rcases read_string_err_inv rest _ hx with h3 | h3 <;> cases h3
  | crash =>
    rw [hx] at h
    have h2 : DecodeResult.crash = DecodeResult.err ParseError.unforeseenError := h
    cases h2
  | outOfFuel =>
    rw [hx] at h
    have h2 : DecodeResult.outOfFuel = DecodeResult.err ParseError.unforeseenError := h
    cases h2

theorem colon_no_unforeseen (rest : List Nat) :
    toInteger (RespType.read_string rest) ≠ DecodeResult.err ParseError.unforeseenError := by
  intro h
  cases hx : RespType.read_string rest with
  | ok rem v =>
    obtain ⟨line, rfl, _, _⟩ := read_string_inv rest rem v hx
    rw [hx] at h
    cases hp : parseI64 line with
    | some n =>
      rw [toInteger_ok_some rem line n hp] at h
      have h2 : DecodeResult.ok rem (RespType.integer n) =
        DecodeResult.err ParseError.unforeseenError := h
      cases h2
    | none =>
      rw [toInteger_ok_none rem line hp] at h
      have h2 : DecodeResult.err ParseError.parseIntError =
        DecodeResult.err ParseError.unforeseenError := h
      cases h2
  | err e =>
    rw [hx] at h
    have h2 : DecodeResult.err e = DecodeResult.err ParseError.unforeseenError := h
    cases h2
    rcases read_string_err_inv rest _ hx with h3 | h3 <;> cases h3
  | crash =>
    rw [hx] at h
    have h2 : DecodeResult.crash = DecodeResult.err ParseError.unforeseenError := h
    cases h2
  | outOfFuel =>
    rw [hx] at h
    have h2 : DecodeResult.outOfFuel = DecodeResult.err ParseError.unforeseenError := h
    cases h2

theorem read_bulk_string_no_unforeseen (bytes : List Nat) :
    RespType.read_bulk_string bytes ≠ DecodeResult.err ParseError.unforeseenError := by
  intro h
  cases hl : RespType.read_line bytes with
  | error e =>
    rw [read_bulk_string_err_line bytes e hl] at h
    have h2 : DecodeResult.err e = DecodeResult.err ParseError.unforeseenError := h
    cases h2
    exact ParseError.noConfusion (read_line_err bytes _ hl)
  | ok pr =>
    obtain ⟨rem, line⟩ := pr
    cases hp : parseLineInt line with
    | error e =>
      rw [read_bulk_string_err_parse bytes rem line e hl hp] at h
      have h2 : DecodeResult.err e = DecodeResult.err ParseError.unforeseenError := h
      cases h2
      rcases parseLineInt_err_inv line _ hp with h3 | h3 <;> cases h3
    | ok size =>
      rw [read_bulk_string_eq bytes rem line size hl hp] at h
      by_cases hm1 : size = -1
      · rw [if_pos hm1] at h; cases h
      · rw [if_neg hm1] at h
        by_cases hlt : rem.length < (usizeOfI64 size + 2) % 2 ^ 64
        · rw [if_pos hlt] at h; cases h
        · rw [if_neg hlt] at h
          by_cases hle : usizeOfI64 size ≤ rem.length
          · rw [if_pos hle] at h; cases h
          · rw [if_neg hle] at h; cases h

theorem readElemsGo_no_unforeseen (d : List Nat → DecodeResult)
    (hd : ∀ b, d b ≠ DecodeResult.err ParseError.unforeseenError) :
    ∀ n bytes acc, readElemsGo d n bytes acc ≠ DecodeResult.err ParseError.unforeseenError
  | 0, bytes, acc, h => by
    have h2 : DecodeResult.ok bytes (RespType.array acc) =
      DecodeResult.err ParseError.unforeseenError := h
    cases h2
  | n + 1, bytes, acc, h => by
    simp only [readElemsGo] at h
    cases hd2 : d bytes with
    | ok r v =>
      rw [hd2] at h
      exact readElemsGo_no_unforeseen d hd n r (acc ++ [v]) h
    | err e =>
      rw [hd2] at h
      have h2 : DecodeResult.err e = DecodeResult.err ParseError.unforeseenError := h
      cases h2
      exact hd bytes hd2
    | crash =>
      rw [hd2] at h
      have h2 : DecodeResult.crash = DecodeResult.err ParseError.unforeseenError := h
      cases h2
    | outOfFuel =>
      rw [hd2] at h
      have h2 : DecodeResult.outOfFuel = DecodeResult.err ParseError.unforeseenError := h
      cases h2

theorem decodeF_no_unforeseen : ∀ fuel bytes,
    decodeF fuel bytes ≠ DecodeResult.err ParseError.unforeseenError
  | 0, bytes, h => by
    have h2 : DecodeResult.outOfFuel = DecodeResult.err ParseError.unforeseenError := h
    cases h2
  | fuel + 1, [], h => by
    have h2 : DecodeResult.err ParseError.unexpectedEof =
      DecodeResult.err ParseError.unforeseenError := h
    cases h2
  | fuel + 1, b :: rest, h => by
    have h2 : (if b = 43 then RespType.read_string rest
        else if b = 45 then toError (RespType.read_string rest)
        else if b = 58 then toInteger (RespType.read_string rest)
        else if b = 36 then RespType.read_bulk_string rest
        else if b = 42 then RespType.read_array (fun bs => decodeF fuel bs) rest
        else DecodeResult.err (ParseError.unexpectedByte b)) =
      DecodeResult.err ParseError.unforeseenError := h
    by_cases h43 : b = 43
    · rw [if_pos h43] at h2
      exact read_string_no_unforeseen rest h2
    · rw [if_neg h43] at h2
      by_cases h45 : b = 45
      · rw [if_pos h45] at h2
        exact minus_no_unforeseen rest h2
      · rw [if_neg h45] at h2
        by_cases h58 : b = 58
        · rw [if_pos h58] at h2
          exact colon_no_unforeseen rest h2
        · rw [if_neg h58] at h2
          by_cases h36 : b = 36
          · rw [if_pos h36] at h2
            exact read_bulk_string_no_unforeseen rest h2
          · rw [if_neg h36] at h2
            by_cases h42 : b = 42
            · rw [if_pos h42] at h2
              cases hl : RespType.read_line rest with
              | error e =>
                rw [read_array_err_line _ rest e hl] at h2
                have h3 : DecodeResult.err e = DecodeResult.err ParseError.unforeseenError := h2
                cases h3
                exact ParseError.noConfusion (read_line_err rest _ hl)
              | ok pr =>
                obtain ⟨rem, line⟩ := pr
                cases hp : parseLineInt line with
                | error e =>
                  rw [read_array_err_parse _ rest rem line e hl hp] at h2
                  have h3 : DecodeResult.err e =
                    DecodeResult.err ParseError.unforeseenError := h2
                  cases h3
                  rcases parseLineInt_err_inv line _ hp with h4 | h4 <;> cases h4
                | ok size =>
                  rw [read_array_eq _ rest rem line size hl hp] at h2
                  exact readElemsGo_no_unforeseen (fun bs => decodeF fuel bs)
                    (fun bs => decodeF_no_unforeseen fuel bs) size.toNat rem [] h2
            · rw [if_neg h42] at h2
              cases h2

theorem from_bytes_no_unforeseen (bytes : List Nat) :
    RespType.from_bytes bytes ≠ DecodeResult.err ParseError.unforeseenError :=
  decodeF_no_unforeseen (bytes.length + 1) bytes


theorem as_bytes_list_eq_flatten : ∀ items : List RespType,
    RespType.as_bytes_list items = (items.map RespType.as_bytes).flatten
  | [] => rfl
  | v :: vs => by
    simp only [RespType.as_bytes_list, List.map_cons, List.flatten_cons,
      as_bytes_list_eq_flatten vs]

/-! ### Claim theorems -/

/-- C1: for every value in the canonical subset (simple-string and error
payloads, recursively, contain no CR and no LF byte; payload types carry
the Rust invariants recorded by wellFormed), decoding encode(v) ++ tail
succeeds and returns v with remainder exactly tail; in particular
decode(encode v) returns (empty remainder, v), and on
encode v1 ++ encode v2 ++ tail decode returns v1 with remainder
encode v2 ++ tail. -/
theorem c1_roundtrip :
    (∀ (v : RespType) (tail : List Nat), RespType.wellFormed v = true →
      RespType.canonical v = true →
      RespType.from_bytes (RespType.as_bytes v ++ tail) = DecodeResult.ok tail v)
  ∧ (∀ v : RespType, RespType.wellFormed v = true → RespType.canonical v = true →
      RespType.from_bytes (RespType.as_bytes v) = DecodeResult.ok [] v)
  ∧ (∀ (v1 v2 : RespType) (tail : List Nat),
      RespType.wellFormed v1 = true → RespType.canonical v1 = true →
      RespType.from_bytes (RespType.as_bytes v1 ++ (RespType.as_bytes v2 ++ tail)) =
        DecodeResult.ok (RespType.as_bytes v2 ++ tail) v1) := by
  refine ⟨fun v tail hwf hc => roundtrip_with_tail v hwf hc tail, ?_, ?_⟩
  · intro v hwf hc
    have h := roundtrip_with_tail v hwf hc []
    rwa [List.append_nil] at h
  · intro v1 v2 tail hwf hc
    exact roundtrip_with_tail v1 hwf hc _

theorem c1_roundtrip_witness :
    RespType.from_bytes
        (RespType.as_bytes (RespType.integer 1000) ++
          (RespType.as_bytes (RespType.bulkString none) ++ [99])) =
      DecodeResult.ok (RespType.as_bytes (RespType.bulkString none) ++ [99])
        (RespType.integer 1000) :=
  c1_roundtrip.2.2 (RespType.integer 1000) (RespType.bulkString none) [99]
    (by decide) (by decide)

/-- C2: the claim states that decoding never panics, naming the input
"$-2\x5cr\x5cnxx\x5cr\x5cn"; the code in fact panics on that input (the negative
size is cast to usize: a debug build overflows in size as usize + 2, a
release build wraps end_idx to 0, passes the length check, and the slice
remaining[..size as usize] is out of range).  This theorem evaluates the
embedded decoder, with Rust release arithmetic made explicit, at exactly
that failing input: the result is the crash marker, not an Ok or a
ParseError. -/
theorem c2_bulk_negative_size_crash :
    RespType.from_bytes [36, 45, 50, 13, 10, 120, 120, 13, 10] = DecodeResult.crash := rfl

/-- C3: for tag 36 followed by a size line, size -1 returns the null
bulk string consuming only the tag and size line; size m with at least
m + 2 remaining bytes returns the first m bytes verbatim with the
remainder starting m + 2 bytes later (the 2 skipped bytes unvalidated);
fewer than m + 2 remaining bytes is UnexpectedEof; the zero-length bulk
string decodes and is distinct from the null bulk string. -/
theorem c3_bulk_string_rules :
    (∀ rest rem line : List Nat, RespType.read_line rest = Except.ok (rem, line) →
      parseLineInt line = Except.ok (-1) →
      RespType.from_bytes (36 :: rest) = DecodeResult.ok rem (RespType.bulkString none))
  ∧ (∀ (rest rem line : List Nat) (m : Nat),
      RespType.read_line rest = Except.ok (rem, line) →
      parseLineInt line = Except.ok ((m : Nat) : Int) → m + 2 ≤ rem.length →
      RespType.from_bytes (36 :: rest) =
        DecodeResult.ok (rem.drop (m + 2)) (RespType.bulkString (some (rem.take m))))
  ∧ (∀ (rest rem line : List Nat) (m : Nat),
      RespType.read_line rest = Except.ok (rem, line) →
      parseLineInt line = Except.ok ((m : Nat) : Int) → rem.length < m + 2 →
      RespType.from_bytes (36 :: rest) = DecodeResult.err ParseError.unexpectedEof)
  ∧ RespType.from_bytes [36, 48, 13, 10, 13, 10] =
      DecodeResult.ok [] (RespType.bulkString (some []))
  ∧ RespType.bulkString (some []) ≠ RespType.bulkString none := by
  refine ⟨?_, ?_, ?_, rfl, by simp⟩
  · intro rest rem line hl hp
    rw [from_bytes_dollar, read_bulk_string_eq rest rem line (-1) hl hp, if_pos rfl]
  · intro rest rem line m hl hp hle
    have hm : m ≤ 2 ^ 63 - 1 := by
      have := parseLineInt_bounds line _ hp
      omega
    rw [from_bytes_dollar, read_bulk_string_eq rest rem line _ hl hp]
    rw [if_neg (by omega : ¬ ((m : Nat) : Int) = -1)]
    have hu : usizeOfI64 ((m : Nat) : Int) = m := by rw [usizeOfI64]; omega
    rw [hu]
    have hend : (m + 2) % 2 ^ 64 = m + 2 := Nat.mod_eq_of_lt (by omega)
    rw [hend, if_neg (by omega), if_pos (by omega)]
  · intro rest rem line m hl hp hlt
    have hm : m ≤ 2 ^ 63 - 1 := by
      have := parseLineInt_bounds line _ hp
      omega
    rw [from_bytes_dollar, read_bulk_string_eq rest rem line _ hl hp]
    rw [if_neg (by omega : ¬ ((m : Nat) : Int) = -1)]
    have hu : usizeOfI64 ((m : Nat) : Int) = m := by rw [usizeOfI64]; omega
    rw [hu]
    have hend : (m + 2) % 2 ^ 64 = m + 2 := Nat.mod_eq_of_lt (by omega)
    rw [hend, if_pos (by omega)]

theorem c3_bulk_string_rules_witness :
    RespType.from_bytes (36 :: [54, 13, 10, 102, 111, 111, 98, 97, 114, 13, 10]) =
      DecodeResult.ok (([102, 111, 111, 98, 97, 114, 13, 10] : List Nat).drop (6 + 2))
        (RespType.bulkString
          (some (([102, 111, 111, 98, 97, 114, 13, 10] : List Nat).take 6))) :=
  c3_bulk_string_rules.2.1 [54, 13, 10, 102, 111, 111, 98, 97, 114, 13, 10]
    [102, 111, 111, 98, 97, 114, 13, 10] [54] 6 rfl rfl (by decide)

/-- C4: for tag 42 followed by a size line, a negative size yields an
empty Array consuming only the tag and size line (in particular the
null-array marker decodes to Ok(Array([])) with empty remainder); a
non-negative size s makes decode run exactly s times via the element
loop decodeElems, which threads the remaining bytes through each call in
order, accumulates the results in order, and propagates the first
failure immediately without attempting further elements. -/
theorem c4_array_rules :
    (∀ (rest rem line : List Nat) (s : Int),
      RespType.read_line rest = Except.ok (rem, line) →
      parseLineInt line = Except.ok s → s < 0 →
      RespType.from_bytes (42 :: rest) = DecodeResult.ok rem (RespType.array []))
  ∧ RespType.from_bytes [42, 45, 49, 13, 10] = DecodeResult.ok [] (RespType.array [])
  ∧ (∀ (rest rem line : List Nat) (s : Int),
      RespType.read_line rest = Except.ok (rem, line) →
      parseLineInt line = Except.ok s → 0 ≤ s →
      RespType.from_bytes (42 :: rest) = decodeElems s.toNat rem [])
  ∧ (∀ (n : Nat) (bytes : List Nat) (acc : List RespType) (rem : List Nat) (v : RespType),
      RespType.from_bytes bytes = DecodeResult.ok rem v →
      decodeElems (n + 1) bytes acc = decodeElems n rem (acc ++ [v]))
  ∧ (∀ (n : Nat) (bytes : List Nat) (acc : List RespType) (e : ParseError),
      RespType.from_bytes bytes = DecodeResult.err e →
      decodeElems (n + 1) bytes acc = DecodeResult.err e) := by
  refine ⟨?_, rfl, ?_, ?_, ?_⟩
  · intro rest rem line s hl hp hneg
    rw [from_bytes_star rest rem line s hl hp, Int.toNat_of_nonpos (by omega)]
    rfl
  · intro rest rem line s hl hp _
    exact from_bytes_star rest rem line s hl hp
  · intro n bytes acc rem v h
    simp only [decodeElems]
    rw [h]
  · intro n bytes acc e h
    simp only [decodeElems]
    rw [h]

theorem c4_array_rules_witness :
    RespType.from_bytes (42 :: [45, 49, 13, 10]) = DecodeResult.ok [] (RespType.array []) :=
  c4_array_rules.1 [45, 49, 13, 10] [] [45, 49] (-1) rfl rfl (by decide)

/-- C5: for every value in the canonical well-formed subset, decoding
its encoding with the final byte removed fails with UnexpectedEof. -/
theorem c5_truncation (v : RespType) (hwf : RespType.wellFormed v = true)
    (hc : RespType.canonical v = true) :
    RespType.from_bytes ((RespType.as_bytes v).dropLast) =
      DecodeResult.err ParseError.unexpectedEof :=
  truncation_eof v hwf hc

theorem c5_truncation_witness :
    RespType.from_bytes ((RespType.as_bytes (RespType.bulkString none)).dropLast) =
      DecodeResult.err ParseError.unexpectedEof :=
  c5_truncation (RespType.bulkString none) rfl rfl

/-- C6: the encoder is a total function producing exactly the specified
bytes for every variant: tag byte, then payload or decimal size, with
CR LF terminators; decimal sizes and integers are faithful decimal ASCII
(digitsVal recovers the number and every byte is a digit, with a leading
minus byte exactly for negative integers); an array encodes as its tag,
decimal count, terminator, and the concatenation of the encodings of its
items in order. -/
theorem c6_encode_layout :
    (∀ s, RespType.as_bytes (RespType.simpleString s) = [43] ++ s ++ [13, 10])
  ∧ (∀ s, RespType.as_bytes (RespType.error s) = [45] ++ s ++ [13, 10])
  ∧ (∀ n, RespType.as_bytes (RespType.integer n) = [58] ++ intToDecBytes n ++ [13, 10])
  ∧ (∀ n : Int, intToDecBytes n =
      if n < 0 then 45 :: natToDecBytes (-n).toNat else natToDecBytes n.toNat)
  ∧ (∀ m : Nat, digitsVal (natToDecBytes m) = m ∧ (natToDecBytes m).all isDigit = true)
  ∧ (∀ b, RespType.as_bytes (RespType.bulkString (some b)) =
      [36] ++ natToDecBytes b.length ++ [13, 10] ++ b ++ [13, 10])
  ∧ RespType.as_bytes (RespType.bulkString none) = [36, 45, 49, 13, 10]
  ∧ (∀ items, RespType.as_bytes (RespType.array items) =
      [42] ++ natToDecBytes items.length ++ [13, 10] ++
        (items.map RespType.as_bytes).flatten) := by
  refine ⟨fun s => by simp [RespType.as_bytes], fun s => by simp [RespType.as_bytes],
    fun n => by simp [RespType.as_bytes], fun n => rfl,
    fun m => ⟨digitsVal_natToDecBytes m, natToDecBytes_all_digit m⟩,
    fun b => by simp [RespType.as_bytes], rfl,
    fun items => by simp [RespType.as_bytes, as_bytes_list_eq_flatten]⟩

/-- C7: on the empty input decode returns UnexpectedEof; when the first
byte is outside the five known tags it returns UnexpectedByte carrying
that exact byte; and for every input whatsoever the internal-consistency
error UnforeseenError is never returned. -/
theorem c7_dispatch :
    RespType.from_bytes [] = DecodeResult.err ParseError.unexpectedEof
  ∧ (∀ (b : Nat) (rest : List Nat), b ∉ ([43, 45, 58, 36, 42] : List Nat) →
      RespType.from_bytes (b :: rest) = DecodeResult.err (ParseError.unexpectedByte b))
  ∧ (∀ bytes : List Nat,
      RespType.from_bytes bytes ≠ DecodeResult.err ParseError.unforeseenError) := by
  refine ⟨rfl, ?_, from_bytes_no_unforeseen⟩
  intro b rest hb
  simp only [List.mem_cons, List.not_mem_nil, or_false, not_or] at hb
  exact from_bytes_other b rest hb.1 hb.2.1 hb.2.2.1 hb.2.2.2.1 hb.2.2.2.2

theorem c7_dispatch_witness :
    RespType.from_bytes [65] = DecodeResult.err (ParseError.unexpectedByte 65) :=
  c7_dispatch.2.1 65 [] (by decide)

/-- Shape asserted by claim C8 for accepted integer lines: ASCII digits
with an optional single leading minus byte and nothing else (no leading
plus). -/
def specDigitsMinusShape (l : List Nat) : Bool :=
  match l with
  | 45 :: rest => !rest.isEmpty && rest.all isDigit
  | _ => !l.isEmpty && l.all isDigit

/-- C8 counterexample: the line made of the bytes 43 53 (a plus sign
then the digit five) is not of the claimed digits-with-optional-minus
shape, yet decoding the integer frame with that line returns
Ok(Integer 5) rather than failing with the invalid-number error — Rust
str::parse::<i64> also accepts a leading plus sign, refuting the claim
as stated. -/
theorem c8_counterexample :
    specDigitsMinusShape [43, 53] = false
  ∧ RespType.from_bytes [58, 43, 53, 13, 10] = DecodeResult.ok [] (RespType.integer 5)
  ∧ DecodeResult.ok [] (RespType.integer 5) ≠ DecodeResult.err ParseError.parseIntError :=
  ⟨rfl, rfl, fun h => DecodeResult.noConfusion h⟩

/-- C8 amended: when decode reads tag 58 followed by a terminated line,
a line accepted by Rust i64 parsing — digits with an optional single
leading minus or plus sign, value within the signed 64-bit range —
yields Integer of that value; a valid-UTF-8 line rejected by that parse
(including overflow) fails with ParseIntError; a non-UTF-8 line fails
with FromUtf8Error. -/
theorem c8_integer_amended :
    ∀ rest rem line : List Nat, RespType.read_line rest = Except.ok (rem, line) →
      ( (∀ n : Int, parseI64 line = some n →
          RespType.from_bytes (58 :: rest) = DecodeResult.ok rem (RespType.integer n))
      ∧ (validUtf8 line = true → parseI64 line = none →
          RespType.from_bytes (58 :: rest) = DecodeResult.err ParseError.parseIntError)
      ∧ (validUtf8 line = false →
          RespType.from_bytes (58 :: rest) = DecodeResult.err ParseError.fromUtf8Error) ) := by
  intro rest rem line hl
  refine ⟨?_, ?_, ?_⟩
  · intro n hp
    have hu : validUtf8 line = true := validUtf8_of_parseI64 line n hp
    rw [from_bytes_colon, read_string_ok rest rem line hl hu,
      toInteger_ok_some rem line n hp]
  · intro hu hp
    rw [from_bytes_colon, read_string_ok rest rem line hl hu,
      toInteger_ok_none rem line hp]
  · intro hu
    rw [from_bytes_colon, read_string_utf8_err rest rem line hl hu]
    rfl

theorem c8_integer_amended_witness :
    RespType.from_bytes (58 :: [49, 48, 48, 48, 13, 10]) =
      DecodeResult.ok [] (RespType.integer 1000) :=
  (c8_integer_amended [49, 48, 48, 48, 13, 10] [] [49, 48, 48, 48] rfl).1 1000 rfl

/-- C9: read_line returns the prefix strictly before the first index p
with byte 13 at p and byte 10 at p + 1, with the remainder starting at
p + 2 and no earlier such adjacent pair (so a lone CR or a lone LF never
terminates a line); when no such pair exists the result is
UnexpectedEof; in particular a single tag byte with nothing after it
makes decode return UnexpectedEof. -/
theorem c9_read_line_rules :
    (∀ bytes rem line : List Nat, RespType.read_line bytes = Except.ok (rem, line) →
      ∃ p, bytes.get? p = some 13 ∧ bytes.get? (p + 1) = some 10 ∧
        (∀ q, q < p → ¬(bytes.get? q = some 13 ∧ bytes.get? (q + 1) = some 10)) ∧
        line = bytes.take p ∧ rem = bytes.drop (p + 2))
  ∧ (∀ bytes : List Nat,
      (∀ p, ¬(bytes.get? p = some 13 ∧ bytes.get? (p + 1) = some 10)) →
      RespType.read_line bytes = Except.error ParseError.unexpectedEof)
  ∧ (∀ t, t ∈ ([43, 45, 58, 36, 42] : List Nat) →
      RespType.from_bytes [t] = DecodeResult.err ParseError.unexpectedEof) := by
  refine ⟨read_line_ok_spec, read_line_no_crlf, ?_⟩
  intro t ht
  fin_cases ht <;> rfl

theorem c9_read_line_rules_witness :
    RespType.from_bytes [36] = DecodeResult.err ParseError.unexpectedEof :=
  c9_read_line_rules.2.2 36 (by decide)

/-- C10: every successful decode returns a remainder at least three
bytes shorter than its input (a tag byte and a CR-LF-terminated line are
always consumed), which makes the element loop run on strictly shrinking
slices and the recursion between from_bytes and read_array well founded
on input length. -/
theorem c10_progress (bytes rem : List Nat) (v : RespType)
    (h : RespType.from_bytes bytes = DecodeResult.ok rem v) :
    rem.length + 3 ≤ bytes.length :=
  from_bytes_shrink bytes rem v h

theorem c10_progress_witness :
    ([] : List Nat).length + 3 ≤ ([43, 79, 75, 13, 10] : List Nat).length :=
  c10_progress [43, 79, 75, 13, 10] [] (RespType.simpleString [79, 75]) rfl
